import Mathlib

/-!
# Verification of the FINAL video-processing service core

Shallow embedding, in Lean 4, of the orchestration core of the
distributed video-processing service found under `FINAL/src`:

* `metrics/stats.py`   — the `MetricsCollector` class;
* `storage/writer.py`  — `VideoWriter` and `VideoFrameBuffer`;
* `protocol/messages.py` — length-prefixed JSON codec (`send_message`,
  `recv_message`, `_recv_exact`) and the message constructors;
* `worker.py`          — the `process_frame` Celery task body;
* `server.py`          — the per-connection orchestrator
  (`ClientHandler.handle`, `VideoProcessor`).

Python floats are modelled as rationals (`ℚ`), Python ints as `Nat`/`Int`,
byte strings as `List Nat` (each entry < 256), and Python text strings as
`List Char` (Unicode scalar values; a Python string containing lone
surrogates is not UTF-8 encodable and therefore never crosses the wire).
Python dicts used as JSON objects are modelled as ordered association
lists, matching the insertion-order semantics of `dict` and `json.dumps`.
-/

namespace VideoService

/-! ## Metrics collector (`metrics/stats.py`)

`MetricsCollector` keeps counters, a latency list, per-worker tallies and
per-filter counts.  Wall-clock derived quantities (`start_time`, FPS, ETA)
depend on real time and are not part of the state modelled here; no claim
under verification mentions them.  All methods run under `self.lock`, so a
session history is a sequence of atomic operations. -/

/-- Per-worker tally: `frames_processed`, `total_time_ms`, `total_memory_mb`
(the value type of the `worker_stats` defaultdict). -/
structure WorkerTally where
  framesProcessed : Nat
  totalTimeMs : ℚ
  totalMemoryMb : ℚ
  deriving Repr, DecidableEq

/-- State of `MetricsCollector` (the time-independent fields). -/
structure MetricsCollector where
  framesProcessed : Nat
  framesTotal : Nat
  framesFailed : Nat
  retriesCount : Nat
  latencies : List ℚ
  workerStats : List (String × WorkerTally)
  filtersCount : List (String × Nat)
  deriving Repr, DecidableEq

/-- `MetricsCollector.__init__`: all counters zero, all containers empty. -/
def MetricsCollector.init : MetricsCollector :=
  { framesProcessed := 0
    framesTotal := 0
    framesFailed := 0
    retriesCount := 0
    latencies := []
    workerStats := []
    filtersCount := [] }

/-- Read the defaultdict entry for a worker, defaulting to the zero tally. -/
def lookupTally (stats : List (String × WorkerTally)) (w : String) : WorkerTally :=
  match stats.find? (fun p => p.1 = w) with
  | some p => p.2
  | none => ⟨0, 0, 0⟩

/-- Store an updated tally for a worker (replacing the previous entry). -/
def storeTally (stats : List (String × WorkerTally)) (w : String) (t : WorkerTally) :
    List (String × WorkerTally) :=
  match stats.find? (fun p => p.1 = w) with
  | some _ => stats.map (fun p => if p.1 = w then (w, t) else p)
  | none => stats ++ [(w, t)]

/-- Increment the defaultdict(int) entry for a filter name. -/
def bumpFilter (fc : List (String × Nat)) (name : String) : List (String × Nat) :=
  match fc.find? (fun p => p.1 = name) with
  | some _ => fc.map (fun p => if p.1 = name then (p.1, p.2 + 1) else p)
  | none => fc ++ [(name, 1)]

/-- `MetricsCollector.record_frame`.  Mirrors `stats.py` lines 41-75:
increment `frames_processed`; on `failed` increment `frames_failed`,
otherwise append the latency; `if worker_id:` and `if filter_applied:`
are Python truthiness tests, so `None` and the empty string both skip the
corresponding update. -/
def MetricsCollector.recordFrame (m : MetricsCollector)
    (processingTimeMs : ℚ) (workerId : Option String)
    (filterApplied : Option String) (memoryMb : ℚ) (failed : Bool) :
    MetricsCollector :=
  let m := { m with framesProcessed := m.framesProcessed + 1 }
  let m :=
    if failed then { m with framesFailed := m.framesFailed + 1 }
    else { m with latencies := m.latencies ++ [processingTimeMs] }
  let m :=
    match workerId with
    | none => m
    | some w =>
      if w = "" then m
      else
        let t := lookupTally m.workerStats w
        let nt : WorkerTally :=
          { framesProcessed := t.framesProcessed + 1
            totalTimeMs := t.totalTimeMs + processingTimeMs
            totalMemoryMb := t.totalMemoryMb + memoryMb }
        { m with workerStats := storeTally m.workerStats w nt }
  match filterApplied with
  | none => m
  | some f => if f = "" then m else { m with filtersCount := bumpFilter m.filtersCount f }

/-- `MetricsCollector.record_retry`. -/
def MetricsCollector.recordRetry (m : MetricsCollector) : MetricsCollector :=
  { m with retriesCount := m.retriesCount + 1 }

/-- `MetricsCollector.set_total_frames`. -/
def MetricsCollector.setTotalFrames (m : MetricsCollector) (total : Nat) :
    MetricsCollector :=
  { m with framesTotal := total }

/-- `MetricsCollector.reset` clears every counter and container
(`start_time` is also refreshed, but time is outside the model). -/
def MetricsCollector.reset (_m : MetricsCollector) : MetricsCollector :=
  MetricsCollector.init

/-- One mutating call on the collector. -/
inductive MetricsOp where
  | recordFrame (processingTimeMs : ℚ) (workerId : Option String)
      (filterApplied : Option String) (memoryMb : ℚ) (failed : Bool)
  | recordRetry
  | setTotalFrames (total : Nat)
  | reset
  deriving Repr

/-- Apply one operation to the collector state. -/
def MetricsCollector.step (m : MetricsCollector) : MetricsOp → MetricsCollector
  | .recordFrame t w f mem failed => m.recordFrame t w f mem failed
  | .recordRetry => m.recordRetry
  | .setTotalFrames n => m.setTotalFrames n
  | .reset => m.reset

/-- Run a whole sequence of operations from construction. -/
def MetricsCollector.run (ops : List MetricsOp) : MetricsCollector :=
  ops.foldl MetricsCollector.step MetricsCollector.init

/-- The balance invariant of the collector. -/
def MetricsCollector.balanced (m : MetricsCollector) : Prop :=
  m.framesProcessed = m.framesFailed + m.latencies.length

theorem balanced_init : MetricsCollector.init.balanced := rfl

theorem recordFrame_framesProcessed (m : MetricsCollector) (t : ℚ)
    (w f : Option String) (mem : ℚ) (failed : Bool) :
    (m.recordFrame t w f mem failed).framesProcessed = m.framesProcessed + 1 := by
  rcases w with _ | wv <;> rcases f with _ | fv <;>
    simp [MetricsCollector.recordFrame] <;>
    cases failed <;> split <;> simp_all <;> split <;> simp_all

theorem recordFrame_framesFailed (m : MetricsCollector) (t : ℚ)
    (w f : Option String) (mem : ℚ) (failed : Bool) :
    (m.recordFrame t w f mem failed).framesFailed =
      if failed then m.framesFailed + 1 else m.framesFailed := by
  rcases w with _ | wv <;> rcases f with _ | fv <;>
    simp [MetricsCollector.recordFrame] <;>
    cases failed <;> split <;> simp_all <;> split <;> simp_all

theorem recordFrame_latencies (m : MetricsCollector) (t : ℚ)
    (w f : Option String) (mem : ℚ) (failed : Bool) :
    (m.recordFrame t w f mem failed).latencies =
      if failed then m.latencies else m.latencies ++ [t] := by
  rcases w with _ | wv <;> rcases f with _ | fv <;>
    simp [MetricsCollector.recordFrame] <;>
    cases failed <;> split <;> simp_all <;> split <;> simp_all

theorem balanced_step {m : MetricsCollector} (h : m.balanced) (op : MetricsOp) :
    (m.step op).balanced := by
  cases op with
  | recordFrame t w f mem failed =>
    have h1 := recordFrame_framesProcessed m t w f mem failed
    have h2 := recordFrame_framesFailed m t w f mem failed
    have h3 := recordFrame_latencies m t w f mem failed
    simp only [MetricsCollector.balanced, MetricsCollector.step] at h ⊢
    rw [h1, h2, h3]
    cases failed <;> simp <;> omega
  | recordRetry =>
    simpa [MetricsCollector.step, MetricsCollector.recordRetry,
      MetricsCollector.balanced] using h
  | setTotalFrames n =>
    simpa [MetricsCollector.step, MetricsCollector.setTotalFrames,
      MetricsCollector.balanced] using h
  | reset => simp [MetricsCollector.step, MetricsCollector.reset,
      MetricsCollector.balanced, MetricsCollector.init]

/-! ### Percentile (`MetricsCollector.get_percentile`, `stats.py` lines 87-111) -/

/-- Python `int(...)` applied to a rational: truncation toward zero. -/
def pyInt (q : ℚ) : ℤ := if q < 0 then ⌈q⌉ else ⌊q⌋

/-- Body of `get_percentile` on a given latency list (the method reads
`self.latencies` and otherwise touches no other state).
`sorted_latencies[-1]` is the last element, modelled as `getD (n-1)`; the
two indexed reads of the interpolation branch are shown in range below
rather than assumed. -/
def percentileOf (l : List ℚ) (percentile : ℚ) : ℚ :=
  if l = [] then 0
  else
    let s := l.insertionSort (· ≤ ·)
    let n := s.length
    let k : ℚ := ((n : ℚ) - 1) * percentile / 100
    let f : ℤ := pyInt k
    let c : ℤ := f + 1
    if (n : ℤ) ≤ c then s.getD (n - 1) 0
    else s.getD f.toNat 0 * ((c : ℚ) - k) + s.getD c.toNat 0 * (k - (f : ℚ))

/-- `MetricsCollector.get_percentile` (`stats.py` lines 87-111). -/
def MetricsCollector.getPercentile (m : MetricsCollector) (percentile : ℚ) : ℚ :=
  percentileOf m.latencies percentile

theorem getPercentile_empty (m : MetricsCollector) (p : ℚ) (h : m.latencies = []) :
    m.getPercentile p = 0 := by
  simp [MetricsCollector.getPercentile, percentileOf, h]

/-- Core bound: on a non-empty sample and a percentile in `[0, 100]`, the
result of `get_percentile` is bracketed by two elements of the sample
(hence lies between the minimum and the maximum of the sample). -/
theorem percentileOf_bounds (l : List ℚ) (p : ℚ)
    (hne : l ≠ []) (hp0 : 0 ≤ p) (hp1 : p ≤ 100) :
    ∃ lo ∈ l, ∃ hi ∈ l, lo ≤ percentileOf l p ∧ percentileOf l p ≤ hi := by
  have hperm : (l.insertionSort (· ≤ ·)).Perm l := l.perm_insertionSort (· ≤ ·)
  have hsorted : (l.insertionSort (· ≤ ·)).Sorted (· ≤ ·) :=
    l.sorted_insertionSort (· ≤ ·)
  set s := l.insertionSort (· ≤ ·) with hs
  have hlen : s.length = l.length := hperm.length_eq
  have hpos : 0 < s.length := by
    rw [hlen]
    exact List.length_pos.mpr hne
  set n := s.length with hn
  set k : ℚ := ((n : ℚ) - 1) * p / 100 with hk
  have hn1 : (1 : ℚ) ≤ (n : ℚ) := by exact_mod_cast hpos
  have hk0 : 0 ≤ k := by
    rw [hk]
    have h1 : (0 : ℚ) ≤ (n : ℚ) - 1 := by linarith
    positivity
  have hkle : k ≤ (n : ℚ) - 1 := by
    rw [hk, div_le_iff₀ (by norm_num : (0:ℚ) < 100)]
    nlinarith
  have hpy : pyInt k = ⌊k⌋ := by
    rw [pyInt, if_neg (not_lt.mpr hk0)]
  have hf0 : 0 ≤ ⌊k⌋ := Int.floor_nonneg.mpr hk0
  have hfk : (⌊k⌋ : ℚ) ≤ k := Int.floor_le k
  have hkf : k < (⌊k⌋ : ℚ) + 1 := Int.lt_floor_add_one k
  have hfle : ⌊k⌋ ≤ (n : ℤ) - 1 := by
    have h2 : (⌊k⌋ : ℚ) ≤ (n : ℚ) - 1 := le_trans hfk hkle
    exact_mod_cast h2
  have hval : percentileOf l p =
      if (n : ℤ) ≤ ⌊k⌋ + 1 then s.getD (n - 1) 0
      else s.getD ⌊k⌋.toNat 0 * (((⌊k⌋ + 1 : ℤ) : ℚ) - k)
            + s.getD (⌊k⌋ + 1).toNat 0 * (k - (⌊k⌋ : ℚ)) := by
    rw [percentileOf, if_neg hne]
    dsimp only
    rw [← hs, ← hn, ← hk, hpy]
  by_cases hcase : (n : ℤ) ≤ ⌊k⌋ + 1
  · -- `c >= len(sorted_latencies)`: the last element is returned
    rw [hval, if_pos hcase]
    have hidx : n - 1 < s.length := by omega
    have hgd : s.getD (n - 1) 0 = s.get ⟨n - 1, hidx⟩ := by
      rw [List.getD_eq_getElem s 0 hidx]
      simp
    have hmem : s.getD (n - 1) 0 ∈ l := by
      rw [hgd]
      exact hperm.mem_iff.mp (s.get_mem _ _)
    exact ⟨_, hmem, _, hmem, le_refl _, le_refl _⟩
  · -- interpolation between two adjacent sorted elements
    rw [hval, if_neg hcase]
    have hfn : ⌊k⌋.toNat < n := by omega
    have hcn : (⌊k⌋ + 1).toNat < n := by omega
    have hstep : (⌊k⌋ + 1).toNat = ⌊k⌋.toNat + 1 := by omega
    have hA : s.getD ⌊k⌋.toNat 0 = s.get ⟨⌊k⌋.toNat, hfn⟩ := by
      rw [List.getD_eq_getElem s 0 hfn]
      simp
    have hB : s.getD (⌊k⌋ + 1).toNat 0 = s.get ⟨(⌊k⌋ + 1).toNat, hcn⟩ := by
      rw [List.getD_eq_getElem s 0 hcn]
      simp
    have hAB : s.get ⟨⌊k⌋.toNat, hfn⟩ ≤ s.get ⟨(⌊k⌋ + 1).toNat, hcn⟩ := by
      apply hsorted.rel_get_of_lt
      simp [Fin.lt_def, hstep]
    have hmemA : s.get ⟨⌊k⌋.toNat, hfn⟩ ∈ l := hperm.mem_iff.mp (s.get_mem _ _)
    have hmemB : s.get ⟨(⌊k⌋ + 1).toNat, hcn⟩ ∈ l := hperm.mem_iff.mp (s.get_mem _ _)
    have hcast : ((⌊k⌋ + 1 : ℤ) : ℚ) = (⌊k⌋ : ℚ) + 1 := by push_cast; ring
    refine ⟨_, hmemA, _, hmemB, ?_, ?_⟩
    · rw [hA, hB, hcast]
      nlinarith [mul_nonneg (sub_nonneg.mpr hfk) (sub_nonneg.mpr hAB)]
    · rw [hA, hB, hcast]
      nlinarith [mul_nonneg (sub_nonneg.mpr (le_of_lt hkf)) (sub_nonneg.mpr hAB)]

/-! ## Video writer and frame buffer (`storage/writer.py`)

`VideoWriter` wraps a cv2 encoder; `VideoFrameBuffer` reorders frames and
feeds them to the writer in ascending index order.  A decoded frame is a
numpy array of shape `(height, width, 3)`; its pixel payload is abstracted
to a type parameter `C` together with the two content operations the code
uses (`cv2.resize` and `np.zeros`), since the claims under verification
inspect only frame dimensions and frame identity.  The `written` list
records, in order, the frames handed to the underlying cv2 encoder by
`self.writer.write(frame)`. -/

/-- A decoded frame: dimensions plus abstract pixel payload. -/
structure Frame (C : Type) where
  width : Nat
  height : Nat
  content : C
  deriving Repr, DecidableEq

/-- The two pixel-level operations used by `writer.py`:
`cv2.resize(frame, frame_size)` and `np.zeros((h, w, 3), dtype=np.uint8)`. -/
structure PixelModel (C : Type) where
  resize : C → Nat × Nat → C
  zero : Nat × Nat → C

/-- `cv2.resize(frame, (w, h))` yields a frame of width `w`, height `h`. -/
def cvResize {C : Type} (pm : PixelModel C) (f : Frame C) (size : Nat × Nat) : Frame C :=
  { width := size.1, height := size.2, content := pm.resize f.content size }

/-- `np.zeros((frame_size[1], frame_size[0], 3))`: the black fill frame,
with height `frame_size[1]` and width `frame_size[0]`. -/
def zeroFrame {C : Type} (pm : PixelModel C) (size : Nat × Nat) : Frame C :=
  { width := size.1, height := size.2, content := pm.zero size }

/-- State of a `VideoWriter`.  `backendOpens` models whether the
underlying `cv2.VideoWriter` reports `isOpened()` when created;
`written` is the ordered list of frames handed to that encoder. -/
structure VideoWriterState (C : Type) where
  fourccStr : String
  fps : ℚ
  frameSize : Option (Nat × Nat)
  isOpen : Bool
  frameCount : Nat
  backendOpens : Bool
  written : List (Frame C)

/-- `VideoWriter.__init__(output_path, fourcc, fps, frame_size)`
(the output path plays no further role in the modelled behaviour). -/
def initWriter {C : Type} (fourcc : String) (fps : ℚ)
    (frameSize : Option (Nat × Nat)) (backendOpens : Bool) : VideoWriterState C :=
  { fourccStr := fourcc
    fps := fps
    frameSize := frameSize
    isOpen := false
    frameCount := 0
    backendOpens := backendOpens
    written := [] }

/-- `VideoWriter.open(first_frame)` (`writer.py` lines 40-79).  When
`frame_size` is absent it is taken from `first_frame` (the source raises
`ValueError` when both are absent; that path is unreachable from `write`,
which always passes the frame, and is modelled as a failure).  Opening
succeeds iff the cv2 backend opens. -/
def writerOpen {C : Type} (st : VideoWriterState C) (firstFrame : Option (Frame C)) :
    VideoWriterState C × Bool :=
  if st.isOpen then (st, true)
  else
    match st.frameSize, firstFrame with
    | none, none => (st, false)
    | some fs, _ =>
      if st.backendOpens then ({ st with frameSize := some fs, isOpen := true }, true)
      else ({ st with frameSize := some fs }, false)
    | none, some f =>
      let fs := (f.width, f.height)
      if st.backendOpens then ({ st with frameSize := some fs, isOpen := true }, true)
      else ({ st with frameSize := some fs }, false)

/-- `VideoWriter.write(frame)` (`writer.py` lines 81-109): auto-open on
first use, resize when the frame dimensions differ from `frame_size`,
hand the frame to the encoder and count it. -/
def writerWrite {C : Type} (pm : PixelModel C) (st : VideoWriterState C) (f : Frame C) :
    VideoWriterState C × Bool :=
  let p := if st.isOpen then (st, true) else writerOpen st (some f)
  if p.2 then
    let st1 := p.1
    let fs := st1.frameSize.getD (0, 0)
    let g := if (f.width, f.height) ≠ fs then cvResize pm f fs else f
    ({ st1 with written := st1.written ++ [g], frameCount := st1.frameCount + 1 }, true)
  else (p.1, false)

/-- The frame actually handed to the encoder for an input frame `f`:
resized iff its dimensions differ from the configured size. -/
def fitFrame {C : Type} (pm : PixelModel C) (fs : Nat × Nat) (f : Frame C) : Frame C :=
  if (f.width, f.height) ≠ fs then cvResize pm f fs else f

/-- State of a `VideoFrameBuffer`: the wrapped writer, the out-of-order
`dict` (insertion-ordered association list with unique keys) and the
`next_frame_number` cursor. -/
structure FrameBufferState (C : Type) where
  writer : VideoWriterState C
  buffer : List (Nat × Frame C)
  nextFrameNumber : Nat

/-- `VideoFrameBuffer.__init__(writer)`. -/
def initBuffer {C : Type} (w : VideoWriterState C) : FrameBufferState C :=
  { writer := w, buffer := [], nextFrameNumber := 0 }

/-- Dict membership / read: `frame_number in self.buffer` and
`self.buffer[frame_number]` (first entry with the key; keys are unique). -/
def bufLookup {C : Type} : List (Nat × Frame C) → Nat → Option (Frame C)
  | [], _ => none
  | p :: rest, i => if p.1 = i then some p.2 else bufLookup rest i

/-- Replace the value stored under an existing key, in place. -/
def replaceKey {C : Type} : List (Nat × Frame C) → Nat → Frame C → List (Nat × Frame C)
  | [], _, _ => []
  | p :: rest, i, f =>
    if p.1 = i then (i, f) :: replaceKey rest i f else p :: replaceKey rest i f

/-- Dict write `self.buffer[k] = v`: replace in place when the key is
present, else append (insertion order of a Python dict). -/
def bufInsert {C : Type} (b : List (Nat × Frame C)) (i : Nat) (f : Frame C) :
    List (Nat × Frame C) :=
  if (bufLookup b i).isSome then replaceKey b i f else b ++ [(i, f)]

/-- Dict removal `self.buffer.pop(k)`. -/
def bufErase {C : Type} : List (Nat × Frame C) → Nat → List (Nat × Frame C)
  | [], _ => []
  | p :: rest, i => if p.1 = i then bufErase rest i else p :: bufErase rest i

/-- The `while self.next_frame_number in self.buffer` loop of
`add_frame`, writing consecutive buffered frames.  Structured with
explicit fuel; each iteration removes the key it consumes, so fuel equal
to the buffer size makes the recursion exhaustive (established in the
lemmas below).  Returns the drained state and the number written.
The boolean result of `self.writer.write` is discarded, as in the source. -/
def drainLoop {C : Type} (pm : PixelModel C) :
    Nat → FrameBufferState C → FrameBufferState C × Nat
  | 0, st => (st, 0)
  | fuel + 1, st =>
    match bufLookup st.buffer st.nextFrameNumber with
    | none => (st, 0)
    | some f =>
      let w1 := (writerWrite pm st.writer f).1
      let st1 : FrameBufferState C :=
        { writer := w1
          buffer := bufErase st.buffer st.nextFrameNumber
          nextFrameNumber := st.nextFrameNumber + 1 }
      let r := drainLoop pm fuel st1
      (r.1, r.2 + 1)

/-- `VideoFrameBuffer.add_frame(frame_number, frame)` (`writer.py`
lines 143-166): insert into the dict, then drain consecutive frames. -/
def addFrame {C : Type} (pm : PixelModel C) (st : FrameBufferState C)
    (i : Nat) (f : Frame C) : FrameBufferState C × Nat :=
  let st1 : FrameBufferState C := { st with buffer := bufInsert st.buffer i f }
  drainLoop pm st1.buffer.length st1

/-- The `while self.next_frame_number < total_frames` loop of
`flush_remaining`, one iteration per remaining index: write the buffered
frame if present, else a zero frame of the writer dimensions (the source
subscripts `self.writer.frame_size`, which is always set here; the `getD`
default is unreachable). -/
def flushLoop {C : Type} (pm : PixelModel C) :
    Nat → FrameBufferState C → FrameBufferState C × Nat
  | 0, st => (st, 0)
  | steps + 1, st =>
    let fs := st.writer.frameSize.getD (0, 0)
    let pair :=
      match bufLookup st.buffer st.nextFrameNumber with
      | some f => (f, bufErase st.buffer st.nextFrameNumber)
      | none => (zeroFrame pm fs, st.buffer)
    let w1 := (writerWrite pm st.writer pair.1).1
    let st1 : FrameBufferState C :=
      { writer := w1
        buffer := pair.2
        nextFrameNumber := st.nextFrameNumber + 1 }
    let r := flushLoop pm steps st1
    (r.1, r.2 + 1)

/-- `VideoFrameBuffer.flush_remaining(total_frames)` (`writer.py` lines
168-195): the loop runs once per index from the cursor up to the total. -/
def flushRemaining {C : Type} (pm : PixelModel C) (st : FrameBufferState C)
    (total : Nat) : FrameBufferState C × Nat :=
  flushLoop pm (total - st.nextFrameNumber) st

/-! ### Correctness development for the frame buffer -/

/-- The orchestrator configuration of a writer: an explicit frame size and
a cv2 backend that opens. -/
structure WriterGood {C : Type} (st : VideoWriterState C) (fs : Nat × Nat) : Prop where
  size : st.frameSize = some fs
  backend : st.backendOpens = true

theorem writerWrite_good {C : Type} (pm : PixelModel C) {st : VideoWriterState C}
    {fs : Nat × Nat} (hg : WriterGood st fs) (f : Frame C) :
    writerWrite pm st f =
      ({ st with isOpen := true,
                 written := st.written ++ [fitFrame pm fs f],
                 frameCount := st.frameCount + 1 }, true) := by
  obtain ⟨hsize, hb⟩ := hg
  cases st with
  | mk fourcc fps fsz op cnt ba wr =>
    simp only at hsize hb
    subst hsize hb
    cases op <;> simp [writerWrite, writerOpen, fitFrame]

theorem fitFrame_zeroFrame {C : Type} (pm : PixelModel C) (fs : Nat × Nat) :
    fitFrame pm fs (zeroFrame pm fs) = zeroFrame pm fs := by
  simp [fitFrame, zeroFrame]

theorem fitFrame_size {C : Type} (pm : PixelModel C) (fs : Nat × Nat) (f : Frame C) :
    ((fitFrame pm fs f).width, (fitFrame pm fs f).height) = fs := by
  by_cases h : (f.width, f.height) ≠ fs
  · simp [fitFrame, h, cvResize]
  · push_neg at h
    simp [fitFrame, h]

theorem bufLookup_replaceKey_self {C : Type} (b : List (Nat × Frame C)) (j : Nat)
    (g : Frame C) (h : (bufLookup b j).isSome) :
    bufLookup (replaceKey b j g) j = some g := by
  induction b with
  | nil => simp [bufLookup] at h
  | cons p rest ih =>
    by_cases hpj : p.1 = j
    · simp [replaceKey, hpj, bufLookup]
    · simp only [bufLookup, if_neg hpj] at h
      simp only [replaceKey, if_neg hpj, bufLookup, if_neg hpj]
      exact ih h

theorem bufLookup_replaceKey_ne {C : Type} (b : List (Nat × Frame C)) (j : Nat)
    (g : Frame C) (i : Nat) (hij : i ≠ j) :
    bufLookup (replaceKey b j g) i = bufLookup b i := by
  induction b with
  | nil => simp [replaceKey]
  | cons p rest ih =>
    by_cases hpj : p.1 = j
    · have hji : ¬ j = i := fun h => hij h.symm
      have hpi : ¬ p.1 = i := by rw [hpj]; exact hji
      simp only [replaceKey, if_pos hpj, bufLookup, if_neg hji, if_neg hpi]
      exact ih
    · simp only [replaceKey, if_neg hpj, bufLookup]
      by_cases hpi : p.1 = i
      · simp [hpi]
      · simp only [if_neg hpi]
        exact ih

theorem bufLookup_append_single {C : Type} (b : List (Nat × Frame C)) (j : Nat)
    (g : Frame C) (i : Nat) :
    bufLookup (b ++ [(j, g)]) i =
      match bufLookup b i with
      | some f => some f
      | none => if j = i then some g else none := by
  induction b with
  | nil => simp [bufLookup]
  | cons p rest ih =>
    by_cases hpi : p.1 = i
    · simp [bufLookup, hpi]
    · simp only [List.cons_append, bufLookup, if_neg hpi]
      exact ih

theorem bufLookup_insert {C : Type} (b : List (Nat × Frame C)) (j : Nat) (g : Frame C)
    (i : Nat) :
    bufLookup (bufInsert b j g) i = if i = j then some g else bufLookup b i := by
  unfold bufInsert
  by_cases hmem : (bufLookup b j).isSome
  · rw [if_pos hmem]
    by_cases hij : i = j
    · subst hij
      rw [if_pos rfl]
      exact bufLookup_replaceKey_self b i g hmem
    · rw [if_neg hij]
      exact bufLookup_replaceKey_ne b j g i hij
  · rw [if_neg hmem, bufLookup_append_single]
    have hnone : bufLookup b j = none := Option.not_isSome_iff_eq_none.mp hmem
    by_cases hij : i = j
    · subst hij
      rw [hnone, if_pos rfl]
    · have hji : ¬ j = i := fun h => hij h.symm
      cases hbi : bufLookup b i with
      | some f => simp [hij]
      | none => simp [hij, hji]

theorem bufLookup_erase {C : Type} (b : List (Nat × Frame C)) (j i : Nat) :
    bufLookup (bufErase b j) i = if i = j then none else bufLookup b i := by
  induction b with
  | nil => by_cases h : i = j <;> simp [h, bufErase, bufLookup]
  | cons p rest ih =>
    by_cases hpj : p.1 = j
    · by_cases hij : i = j
      · simp only [bufErase, if_pos hpj]
        rw [ih, if_pos hij, if_pos hij]
      · have hpi : ¬ p.1 = i := by rw [hpj]; exact fun h => hij h.symm
        simp only [bufErase, if_pos hpj]
        rw [ih, if_neg hij, if_neg hij]
        simp [bufLookup, if_neg hpi]
    · simp only [bufErase, if_neg hpj, bufLookup]
      by_cases hpi : p.1 = i
      · have hij : ¬ i = j := by rw [← hpi]; exact hpj
        simp [hpi, hij]
      · simp only [if_neg hpi]
        exact ih

theorem bufErase_length_le {C : Type} (b : List (Nat × Frame C)) (j : Nat) :
    (bufErase b j).length ≤ b.length := by
  induction b with
  | nil => simp [bufErase]
  | cons p rest ih =>
    by_cases hpj : p.1 = j
    · simp only [bufErase, if_pos hpj, List.length_cons]
      omega
    · simp only [bufErase, if_neg hpj, List.length_cons]
      omega

theorem bufErase_length_lt {C : Type} (b : List (Nat × Frame C)) (j : Nat)
    (h : (bufLookup b j).isSome) : (bufErase b j).length < b.length := by
  induction b with
  | nil => simp [bufLookup] at h
  | cons p rest ih =>
    by_cases hpj : p.1 = j
    · simp only [bufErase, if_pos hpj, List.length_cons]
      have := bufErase_length_le rest j
      omega
    · simp only [bufLookup, if_neg hpj] at h
      have := ih h
      simp only [bufErase, if_neg hpj, List.length_cons]
      omega

/-- The most recent frame supplied for index `i` in a history of
`add_frame` calls (the value the dict would hold for key `i`). -/
def latestAdd {C : Type} (done : List (Nat × Frame C)) (i : Nat) : Option (Frame C) :=
  done.foldl (fun acc p => if p.1 = i then some p.2 else acc) none

theorem latestAdd_concat {C : Type} (done : List (Nat × Frame C)) (j : Nat)
    (g : Frame C) (i : Nat) :
    latestAdd (done ++ [(j, g)]) i = if i = j then some g else latestAdd done i := by
  unfold latestAdd
  rw [List.foldl_append]
  by_cases h : i = j
  · subst h
    simp
  · have hji : ¬ j = i := fun hh => h hh.symm
    simp [h, hji]

theorem latestAdd_aux_mem {C : Type} (done : List (Nat × Frame C)) (i : Nat)
    (f : Frame C) :
    ∀ acc : Option (Frame C),
      done.foldl (fun acc p => if p.1 = i then some p.2 else acc) acc = some f →
      (i, f) ∈ done ∨ acc = some f := by
  induction done with
  | nil => intro acc h; exact Or.inr h
  | cons p rest ih =>
    intro acc h
    simp only [List.foldl_cons] at h
    rcases ih _ h with hmem | hacc
    · exact Or.inl (List.mem_cons_of_mem _ hmem)
    · by_cases hpi : p.1 = i
      · rw [if_pos hpi] at hacc
        have hp2 : p.2 = f := Option.some.inj hacc
        left
        obtain ⟨a, b⟩ := p
        simp only at hpi hp2
        subst hpi
        subst hp2
        exact List.mem_cons_self _ _
      · rw [if_neg hpi] at hacc
        exact Or.inr hacc

theorem latestAdd_mem {C : Type} {done : List (Nat × Frame C)} {i : Nat} {f : Frame C}
    (h : latestAdd done i = some f) : (i, f) ∈ done := by
  rcases latestAdd_aux_mem done i f none h with hmem | habs
  · exact hmem
  · exact absurd habs (by simp)

theorem latestAdd_aux_isSome {C : Type} (done : List (Nat × Frame C)) (i : Nat) :
    ∀ acc : Option (Frame C), (acc.isSome ∨ i ∈ done.map Prod.fst) →
      (done.foldl (fun acc p => if p.1 = i then some p.2 else acc) acc).isSome := by
  induction done with
  | nil =>
    intro acc h
    simpa using h.resolve_right (by simp)
  | cons p rest ih =>
    intro acc h
    simp only [List.foldl_cons]
    apply ih
    by_cases hpi : p.1 = i
    · exact Or.inl (by simp [hpi])
    · rcases h with hs | hm
      · exact Or.inl (by split <;> simp [hs])
      · simp only [List.map_cons, List.mem_cons] at hm
        rcases hm with h1 | h2
        · exact absurd h1.symm hpi
        · exact Or.inr h2

theorem latestAdd_isSome_of_mem {C : Type} {done : List (Nat × Frame C)} {i : Nat}
    (h : i ∈ done.map Prod.fst) : (latestAdd done i).isSome :=
  latestAdd_aux_isSome done i none (Or.inr h)

theorem latestAdd_not_mem {C : Type} {done : List (Nat × Frame C)} {i : Nat}
    (h : i ∉ done.map Prod.fst) : latestAdd done i = none := by
  cases hl : latestAdd done i with
  | none => rfl
  | some f => exact absurd (by simpa using List.mem_map_of_mem Prod.fst (latestAdd_mem hl)) h

/-- The invariant tying a buffer state to the history `done` of
`add_frame` calls performed so far: the writer received exactly the
indices below the cursor, in position order, each being a supplied frame
(resized as needed); and the dict holds exactly the most recent frame for
every index at or above the cursor. -/
structure BufInv {C : Type} (pm : PixelModel C) (fs : Nat × Nat)
    (done : List (Nat × Frame C)) (st : FrameBufferState C) : Prop where
  wgood : WriterGood st.writer fs
  len : st.writer.written.length = st.nextFrameNumber
  writtenSpec : ∀ i, i < st.nextFrameNumber →
    ∃ f, (i, f) ∈ done ∧ st.writer.written[i]? = some (fitFrame pm fs f)
  bufSpec : ∀ i, st.nextFrameNumber ≤ i → bufLookup st.buffer i = latestAdd done i

theorem bufInv_init {C : Type} (pm : PixelModel C) (fs : Nat × Nat)
    (codec : String) (fps : ℚ) :
    BufInv pm fs [] (initBuffer (initWriter codec fps (some fs) true)) := by
  refine ⟨⟨rfl, rfl⟩, rfl, ?_, ?_⟩
  · intro i hi
    simp [initBuffer, initWriter] at hi
  · intro i _
    rfl

theorem getElem?_append_lt {α : Type} (l₁ l₂ : List α) (n : Nat) (h : n < l₁.length) :
    (l₁ ++ l₂)[n]? = l₁[n]? := by
  rw [List.getElem?_append, if_pos h]

theorem getElem?_append_len {α : Type} (l : List α) (a : α) :
    (l ++ [a])[l.length]? = some a := by
  rw [List.getElem?_append]
  simp

theorem writerWrite_fst_written {C : Type} (pm : PixelModel C)
    {st : VideoWriterState C} {fs : Nat × Nat} (hg : WriterGood st fs) (f : Frame C) :
    (writerWrite pm st f).1.written = st.written ++ [fitFrame pm fs f] := by
  rw [writerWrite_good pm hg f]

theorem writerWrite_fst_frameSize {C : Type} (pm : PixelModel C)
    {st : VideoWriterState C} {fs : Nat × Nat} (hg : WriterGood st fs) (f : Frame C) :
    (writerWrite pm st f).1.frameSize = some fs := by
  rw [writerWrite_good pm hg f]
  exact hg.size

theorem writerWrite_fst_backend {C : Type} (pm : PixelModel C)
    {st : VideoWriterState C} {fs : Nat × Nat} (hg : WriterGood st fs) (f : Frame C) :
    (writerWrite pm st f).1.backendOpens = true := by
  rw [writerWrite_good pm hg f]
  exact hg.backend

theorem writerWrite_fst_good {C : Type} (pm : PixelModel C)
    {st : VideoWriterState C} {fs : Nat × Nat} (hg : WriterGood st fs) (f : Frame C) :
    WriterGood (writerWrite pm st f).1 fs :=
  ⟨writerWrite_fst_frameSize pm hg f, writerWrite_fst_backend pm hg f⟩

theorem drainLoop_inv {C : Type} (pm : PixelModel C) (fs : Nat × Nat) :
    ∀ (fuel : Nat) {done : List (Nat × Frame C)} {st : FrameBufferState C},
      BufInv pm fs done st → BufInv pm fs done (drainLoop pm fuel st).1 := by
  intro fuel
  induction fuel with
  | zero => intro done st h; exact h
  | succ fuel ih =>
    intro done st h
    rw [drainLoop]
    cases hlk : bufLookup st.buffer st.nextFrameNumber with
    | none => exact h
    | some f =>
      have hlat : latestAdd done st.nextFrameNumber = some f := by
        rw [← h.bufSpec st.nextFrameNumber (le_refl _)]
        exact hlk
      have hmem : (st.nextFrameNumber, f) ∈ done := latestAdd_mem hlat
      simp only
      apply ih
      refine ⟨writerWrite_fst_good pm h.wgood f, ?_, ?_, ?_⟩
      · show (writerWrite pm st.writer f).1.written.length = st.nextFrameNumber + 1
        rw [writerWrite_fst_written pm h.wgood f]
        simp [h.len]
      · intro i hi
        replace hi : i < st.nextFrameNumber + 1 := hi
        show ∃ g, (i, g) ∈ done ∧
          (writerWrite pm st.writer f).1.written[i]? = some (fitFrame pm fs g)
        rw [writerWrite_fst_written pm h.wgood f]
        rcases Nat.lt_succ_iff_lt_or_eq.mp hi with hi' | hi'
        · obtain ⟨g, hg, hw⟩ := h.writtenSpec i hi'
          refine ⟨g, hg, ?_⟩
          rw [getElem?_append_lt _ _ _ (h.len ▸ hi')]
          exact hw
        · subst hi'
          refine ⟨f, hmem, ?_⟩
          rw [← h.len, getElem?_append_len]
      · intro i hi
        replace hi : st.nextFrameNumber + 1 ≤ i := hi
        show bufLookup (bufErase st.buffer st.nextFrameNumber) i = latestAdd done i
        rw [bufLookup_erase, if_neg (by omega : ¬ i = st.nextFrameNumber)]
        exact h.bufSpec i (by omega)

theorem addFrame_inv {C : Type} (pm : PixelModel C) (fs : Nat × Nat)
    {done : List (Nat × Frame C)} {st : FrameBufferState C}
    (h : BufInv pm fs done st) (j : Nat) (g : Frame C) :
    BufInv pm fs (done ++ [(j, g)]) (addFrame pm st j g).1 := by
  unfold addFrame
  apply drainLoop_inv
  constructor
  · exact h.wgood
  · exact h.len
  · intro i hi
    obtain ⟨f, hf, hw⟩ := h.writtenSpec i hi
    exact ⟨f, List.mem_append_left _ hf, hw⟩
  · intro i hi
    show bufLookup (bufInsert st.buffer j g) i = _
    rw [bufLookup_insert, latestAdd_concat]
    by_cases hij : i = j
    · simp [hij]
    · rw [if_neg hij, if_neg hij]
      exact h.bufSpec i hi

/-- Fold a history of `add_frame(i, frame)` calls over a buffer. -/
def runOps {C : Type} (pm : PixelModel C) (st : FrameBufferState C)
    (ops : List (Nat × Frame C)) : FrameBufferState C :=
  ops.foldl (fun s p => (addFrame pm s p.1 p.2).1) st

theorem runOps_inv {C : Type} (pm : PixelModel C) (fs : Nat × Nat)
    (ops : List (Nat × Frame C)) :
    ∀ {done : List (Nat × Frame C)} {st : FrameBufferState C},
      BufInv pm fs done st → BufInv pm fs (done ++ ops) (runOps pm st ops) := by
  induction ops with
  | nil => intro done st h; simpa [runOps] using h
  | cons p rest ih =>
    intro done st h
    have h1 := addFrame_inv pm fs h p.1 p.2
    have h2 := ih h1
    rw [runOps] at h2 ⊢
    simp only [List.foldl_cons]
    have : done ++ p :: rest = (done ++ [p]) ++ rest := by simp
    rw [this]
    exact h2

/-- What `flush_remaining` ends up writing at index `i`: the most recent
frame added for `i` (resized as required), or the zero frame. -/
def flushChoice {C : Type} (pm : PixelModel C) (fs : Nat × Nat)
    (done : List (Nat × Frame C)) (i : Nat) : Frame C :=
  match latestAdd done i with
  | some f => fitFrame pm fs f
  | none => zeroFrame pm fs

/-- The part of `BufInv` that survives through `flush_remaining` (zero
fill frames are not recorded adds, so `writtenSpec` is dropped). -/
structure FlushInv {C : Type} (pm : PixelModel C) (fs : Nat × Nat)
    (done : List (Nat × Frame C)) (st : FrameBufferState C) : Prop where
  wgood : WriterGood st.writer fs
  len : st.writer.written.length = st.nextFrameNumber
  bufSpec : ∀ i, st.nextFrameNumber ≤ i → bufLookup st.buffer i = latestAdd done i

/-- The frame one `flush_remaining` iteration writes: the buffered frame
for the cursor index, else the zero frame. -/
def flushFrame {C : Type} (pm : PixelModel C) (fs : Nat × Nat)
    (st : FrameBufferState C) : Frame C :=
  match bufLookup st.buffer st.nextFrameNumber with
  | some f => f
  | none => zeroFrame pm fs

/-- The buffer after one `flush_remaining` iteration. -/
def flushBuf {C : Type} (st : FrameBufferState C) : List (Nat × Frame C) :=
  match bufLookup st.buffer st.nextFrameNumber with
  | some _ => bufErase st.buffer st.nextFrameNumber
  | none => st.buffer

theorem flushLoop_succ {C : Type} (pm : PixelModel C) (steps : Nat)
    (st : FrameBufferState C) {fs : Nat × Nat} (hg : WriterGood st.writer fs) :
    (flushLoop pm (steps + 1) st).1 =
      (flushLoop pm steps
        { writer := (writerWrite pm st.writer (flushFrame pm fs st)).1
          buffer := flushBuf st
          nextFrameNumber := st.nextFrameNumber + 1 }).1 := by
  rw [flushLoop]
  cases hlk : bufLookup st.buffer st.nextFrameNumber with
  | some f => simp only [hlk, hg.size, Option.getD_some, flushFrame, flushBuf]
  | none => simp only [hlk, hg.size, Option.getD_some, flushFrame, flushBuf]

theorem flushLoop_spec {C : Type} (pm : PixelModel C) (fs : Nat × Nat) :
    ∀ (steps : Nat) {done : List (Nat × Frame C)} {st : FrameBufferState C},
      FlushInv pm fs done st →
      (flushLoop pm steps st).1.nextFrameNumber = st.nextFrameNumber + steps ∧
      (flushLoop pm steps st).1.writer.written.length = st.nextFrameNumber + steps ∧
      (∀ i, i < st.nextFrameNumber →
        (flushLoop pm steps st).1.writer.written[i]? = st.writer.written[i]?) ∧
      (∀ d, d < steps →
        (flushLoop pm steps st).1.writer.written[st.nextFrameNumber + d]? =
          some (flushChoice pm fs done (st.nextFrameNumber + d))) := by
  intro steps
  induction steps with
  | zero =>
    intro done st h
    exact ⟨rfl, h.len, fun i _ => rfl, fun d hd => absurd hd (Nat.not_lt_zero d)⟩
  | succ steps ih =>
    intro done st h
    have hchoice : fitFrame pm fs (flushFrame pm fs st) =
        flushChoice pm fs done st.nextFrameNumber := by
      rw [flushFrame, flushChoice, ← h.bufSpec st.nextFrameNumber (le_refl _)]
      cases hlk : bufLookup st.buffer st.nextFrameNumber with
      | some f => rfl
      | none => exact fitFrame_zeroFrame pm fs
    have h1 : FlushInv pm fs done
        { writer := (writerWrite pm st.writer (flushFrame pm fs st)).1
          buffer := flushBuf st
          nextFrameNumber := st.nextFrameNumber + 1 } := by
      refine ⟨writerWrite_fst_good pm h.wgood _, ?_, ?_⟩
      · show (writerWrite pm st.writer (flushFrame pm fs st)).1.written.length =
          st.nextFrameNumber + 1
        rw [writerWrite_fst_written pm h.wgood]
        simp [h.len]
      · intro i hi
        replace hi : st.nextFrameNumber + 1 ≤ i := hi
        show bufLookup (flushBuf st) i = latestAdd done i
        rw [flushBuf]
        cases hlk : bufLookup st.buffer st.nextFrameNumber with
        | some f =>
          rw [bufLookup_erase, if_neg (by omega : ¬ i = st.nextFrameNumber)]
          exact h.bufSpec i (by omega)
        | none => exact h.bufSpec i (by omega)
    obtain ⟨hn, hl, hpre, hent⟩ := ih h1
    rw [flushLoop_succ pm steps st h.wgood]
    refine ⟨?_, ?_, ?_, ?_⟩
    · rw [hn]
      show st.nextFrameNumber + 1 + steps = st.nextFrameNumber + (steps + 1)
      omega
    · rw [hl]
      show st.nextFrameNumber + 1 + steps = st.nextFrameNumber + (steps + 1)
      omega
    · intro i hi
      have hpre' := hpre i (by show i < st.nextFrameNumber + 1; omega)
      rw [hpre']
      show (writerWrite pm st.writer (flushFrame pm fs st)).1.written[i]? =
        st.writer.written[i]?
      rw [writerWrite_fst_written pm h.wgood]
      exact getElem?_append_lt _ _ _ (h.len ▸ hi)
    · intro d hd
      cases d with
      | zero =>
        have hpre' := hpre st.nextFrameNumber
          (by show st.nextFrameNumber < st.nextFrameNumber + 1; omega)
        simp only [Nat.add_zero]
        rw [hpre']
        show (writerWrite pm st.writer (flushFrame pm fs st)).1.written[st.nextFrameNumber]? =
          some (flushChoice pm fs done st.nextFrameNumber)
        have hlen2 : (st.writer.written ++
            [fitFrame pm fs (flushFrame pm fs st)])[st.nextFrameNumber]? =
            some (fitFrame pm fs (flushFrame pm fs st)) := by
          rw [← h.len]
          exact getElem?_append_len _ _
        rw [writerWrite_fst_written pm h.wgood, hlen2, hchoice]
      | succ d =>
        have hent' := hent d (by omega)
        have harith : st.nextFrameNumber + (d + 1) = st.nextFrameNumber + 1 + d := by
          omega
        rw [harith]
        exact hent'

/-- Combined specification of a session of `add_frame` calls followed by
`flush_remaining(N)`: the encoder receives exactly `N` frames, position
`i` holding the frame for index `i` — a supplied frame (resized when its
dimensions differ) or the zero frame when index `i` was never supplied. -/
theorem bufferRunFlush_spec {C : Type} (pm : PixelModel C) (fs : Nat × Nat)
    (codec : String) (fps : ℚ) (N : Nat) (ops : List (Nat × Frame C))
    (hidx : ∀ p ∈ ops, p.1 < N) :
    (flushRemaining pm (runOps pm (initBuffer (initWriter codec fps (some fs) true)) ops)
        N).1.writer.written.length = N ∧
    (∀ i, i < N → i ∉ ops.map Prod.fst →
      (flushRemaining pm (runOps pm (initBuffer (initWriter codec fps (some fs) true)) ops)
          N).1.writer.written[i]? = some (zeroFrame pm fs)) ∧
    (∀ i, i < N → i ∈ ops.map Prod.fst →
      ∃ f, (i, f) ∈ ops ∧
        (flushRemaining pm (runOps pm (initBuffer (initWriter codec fps (some fs) true)) ops)
            N).1.writer.written[i]? = some (fitFrame pm fs f)) := by
  have hinv : BufInv pm fs ops
      (runOps pm (initBuffer (initWriter codec fps (some fs) true)) ops) := by
    have := runOps_inv pm fs ops (bufInv_init pm fs codec fps)
    simpa using this
  set st1 := runOps pm (initBuffer (initWriter codec fps (some fs) true)) ops with hst1
  have hle : st1.nextFrameNumber ≤ N := by
    rcases Nat.eq_zero_or_pos st1.nextFrameNumber with h0 | h0
    · omega
    · obtain ⟨f, hmem, _⟩ := hinv.writtenSpec (st1.nextFrameNumber - 1) (by omega)
      have hlt := hidx _ hmem
      simp only at hlt
      omega
  obtain ⟨hn, hl, hpre, hent⟩ :=
    flushLoop_spec pm fs (N - st1.nextFrameNumber)
      (⟨hinv.wgood, hinv.len, hinv.bufSpec⟩ : FlushInv pm fs ops st1)
  have hflush : (flushRemaining pm st1 N).1 =
      (flushLoop pm (N - st1.nextFrameNumber) st1).1 := rfl
  refine ⟨?_, ?_, ?_⟩
  · rw [hflush, hl]
    omega
  · intro i hiN hni
    have hge : st1.nextFrameNumber ≤ i := by
      by_contra hcon
      push_neg at hcon
      obtain ⟨f, hmem, _⟩ := hinv.writtenSpec i hcon
      exact hni (by simpa using List.mem_map_of_mem Prod.fst hmem)
    have harith : st1.nextFrameNumber + (i - st1.nextFrameNumber) = i := by omega
    have hent' := hent (i - st1.nextFrameNumber) (by omega)
    rw [harith] at hent'
    rw [hflush, hent', flushChoice, latestAdd_not_mem hni]
  · intro i hiN hmi
    by_cases hlt : i < st1.nextFrameNumber
    · obtain ⟨f, hmem, hw⟩ := hinv.writtenSpec i hlt
      refine ⟨f, hmem, ?_⟩
      rw [hflush, hpre i hlt]
      exact hw
    · have hge : st1.nextFrameNumber ≤ i := by omega
      have harith : st1.nextFrameNumber + (i - st1.nextFrameNumber) = i := by omega
      have hent' := hent (i - st1.nextFrameNumber) (by omega)
      rw [harith] at hent'
      obtain ⟨f, hf⟩ := Option.isSome_iff_exists.mp (latestAdd_isSome_of_mem hmi)
      refine ⟨f, latestAdd_mem hf, ?_⟩
      rw [hflush, hent', flushChoice, hf]

/-- `VideoWriter.write` on an already-open writer: the call succeeds, the
encoder receives exactly one frame — resized iff its dimensions differ
from `frame_size` — and `frame_count` increases by one. -/
theorem writerWrite_open_spec {C : Type} (pm : PixelModel C) (st : VideoWriterState C)
    (fs : Nat × Nat) (f : Frame C) (hopen : st.isOpen = true)
    (hsize : st.frameSize = some fs) :
    writerWrite pm st f =
      ({ st with written := st.written ++ [fitFrame pm fs f],
                 frameCount := st.frameCount + 1 }, true) := by
  cases st with
  | mk fourcc fps fsz op cnt ba wr =>
    simp only at hopen hsize
    subst hopen hsize
    simp [writerWrite, fitFrame]

/-! ## Worker body (`worker.py`, the `process_frame` Celery task)

The task decodes the PNG payload, applies the named filter, writes
`frame_{n:06d}.png` and `frame_{n:06d}.json` into the session directory
and returns a record.  On an exception it retries while
`self.request.retries < self.max_retries` (3); once retries are
exhausted it writes only the decoded original PNG (when decodable) and
returns — without writing a stats file — a record whose
`stats.filter_applied` is `"error"`.  The pixel work itself is abstracted
to per-attempt outcomes: `decodeOk` says whether `cv2.imdecode` yields a
frame (deterministic in the payload, hence identical across attempts),
and `attempt i` is the outcome of the filter-and-save body on attempt
`i` (`ok name` = no exception, the filter label being `name`; `fail` =
some exception: filter error or a failed `imwrite`). -/

/-- What the PNG artifact contains when written. -/
inductive PngContent where
  | processed
  | original
  deriving Repr, DecidableEq

/-- Outcome of the try-block body on one attempt. -/
inductive AttemptRes where
  | ok (filterName : String)
  | fail
  deriving Repr, DecidableEq

/-- Observable effects of one `process_frame` invocation for one frame
index: which of the two artifact files were written (and the
`filter_applied` recorded in the stats file), plus the `filter_applied`
field of the returned record. -/
structure WorkerOutcome where
  pngWritten : Option PngContent
  statsWritten : Option String
  resultFilter : String
  deriving Repr, DecidableEq

/-- The `try:` block of `process_frame` on one attempt: `none` models an
exception (decode failure, filter failure, or failed `imwrite`); `some`
is the success return, having written both artifact files. -/
def attemptBody (decodeOk : Bool) (r : AttemptRes) : Option WorkerOutcome :=
  if decodeOk then
    match r with
    | .ok name =>
      some { pngWritten := some .processed, statsWritten := some name,
             resultFilter := name }
    | .fail => none
  else none

/-- The `else` branch after exhausted retries (`worker.py` lines 198-232):
re-decode and save the original frame (silently skipped when the decode
fails again), write no stats file, and return a record with
`filter_applied = "error"`. -/
def permanentOutcome (decodeOk : Bool) : WorkerOutcome :=
  { pngWritten := if decodeOk then some .original else none
    statsWritten := none
    resultFilter := "error" }

/-- Attempt loop: run the body; on an exception retry while the attempt
index is below `max_retries = 3`, else take the permanent-failure branch.
Fuel `4` covers attempt indices `0..3`. -/
def workerGo (decodeOk : Bool) (attempt : Nat → AttemptRes) :
    Nat → Nat → WorkerOutcome
  | 0, _ => permanentOutcome decodeOk
  | fuel + 1, idx =>
    match attemptBody decodeOk (attempt idx) with
    | some out => out
    | none =>
      if idx < 3 then workerGo decodeOk attempt fuel (idx + 1)
      else permanentOutcome decodeOk

/-- One logical `process_frame` invocation including its automatic
retries. -/
def processFrameRun (decodeOk : Bool) (attempt : Nat → AttemptRes) : WorkerOutcome :=
  workerGo decodeOk attempt 4 0

theorem processFrameRun_success (attempt : Nat → AttemptRes) (name : String)
    (h : attempt 0 = .ok name) :
    processFrameRun true attempt =
      { pngWritten := some .processed, statsWritten := some name,
        resultFilter := name } := by
  simp [processFrameRun, workerGo, attemptBody, h]

/-! ## JSON values and the `json` module (`protocol/messages.py`)

The wire protocol serialises Python objects with `json.dumps` (default
options: `ensure_ascii=True`, separators `", "` / `": "`) and parses with
`json.loads`.  JSON values are modelled by a mutual inductive; numbers are
modelled as integers (Python floats are outside the embedding), strings as
lists of Unicode scalar values (a Python string holding lone surrogates
raises `UnicodeEncodeError` at `.encode('utf-8')` and so never reaches the
wire), and objects as insertion-ordered field lists, matching `dict`. -/

mutual
inductive Json where
  | null
  | bool (b : Bool)
  | num (n : Int)
  | str (s : List Char)
  | arr (items : JsonArr)
  | obj (fields : JsonObj)
inductive JsonArr where
  | nil
  | cons (hd : Json) (tl : JsonArr)
inductive JsonObj where
  | nil
  | cons (key : List Char) (val : Json) (tl : JsonObj)
end

deriving instance DecidableEq for Json
deriving instance DecidableEq for JsonArr
deriving instance DecidableEq for JsonObj

/-- The double-quote character. -/
def qC : Char := Char.ofNat 34

/-- The backslash character. -/
def bsC : Char := Char.ofNat 92

/-- Opening curly bracket. -/
def obC : Char := Char.ofNat 123

/-- Closing curly bracket. -/
def cbC : Char := Char.ofNat 125

/-- Lower-case hex digit, as produced by CPython `'\u%04x'`. -/
def hexDigit (n : Nat) : Char :=
  if n < 10 then Char.ofNat (48 + n) else Char.ofNat (87 + n)

/-- Four-digit hex rendering of `n < 0x10000`. -/
def hex4 (n : Nat) : List Char :=
  [hexDigit (n / 4096 % 16), hexDigit (n / 256 % 16), hexDigit (n / 16 % 16),
   hexDigit (n % 16)]

/-- `json.dumps` string escaping with `ensure_ascii=True`
(CPython `py_encode_basestring_ascii`): short escapes for the common
control characters, `\uXXXX` for other controls and all non-ASCII,
surrogate pairs for astral code points, printable ASCII verbatim. -/
def escapeChar (c : Char) : List Char :=
  if c = qC then [bsC, qC]
  else if c = bsC then [bsC, bsC]
  else if c = Char.ofNat 8 then [bsC, 'b']
  else if c = Char.ofNat 9 then [bsC, 't']
  else if c = Char.ofNat 10 then [bsC, 'n']
  else if c = Char.ofNat 12 then [bsC, 'f']
  else if c = Char.ofNat 13 then [bsC, 'r']
  else if c.toNat < 32 then bsC :: 'u' :: hex4 c.toNat
  else if c.toNat ≤ 126 then [c]
  else if c.toNat < 65536 then bsC :: 'u' :: hex4 c.toNat
  else
    (bsC :: 'u' :: hex4 (55296 + (c.toNat - 65536) / 1024)) ++
      (bsC :: 'u' :: hex4 (56320 + (c.toNat - 65536) % 1024))

def escapeString : List Char → List Char
  | [] => []
  | c :: rest => escapeChar c ++ escapeString rest

/-- Decimal digit character. -/
def digitChar (d : Nat) : Char := Char.ofNat (48 + d)

/-- Decimal digits of `n`, most significant first (`fuel ≥ n + 1`). -/
def natDigitsAux : Nat → Nat → List Char
  | 0, _ => []
  | fuel + 1, n =>
    if n < 10 then [digitChar n]
    else natDigitsAux fuel (n / 10) ++ [digitChar (n % 10)]

def renderNat (n : Nat) : List Char := natDigitsAux (n + 1) n

/-- Python `repr` of an int, as emitted by `json.dumps`. -/
def renderInt (i : Int) : List Char :=
  if i < 0 then '-' :: renderNat (-i).toNat else renderNat i.toNat

mutual
/-- `json.dumps` with the default separators `", "` and `": "`. -/
def renderJson : Json → List Char
  | .null => "null".toList
  | .bool b => (if b then "true" else "false").toList
  | .num n => renderInt n
  | .str s => qC :: (escapeString s ++ [qC])
  | .arr .nil => ['[', ']']
  | .arr (.cons v tl) => '[' :: (renderJson v ++ renderArrSep tl ++ [']'])
  | .obj .nil => [obC, cbC]
  | .obj (.cons k v tl) =>
    obC :: (qC :: (escapeString k ++ [qC]) ++ (':' :: ' ' :: renderJson v) ++
      renderObjSep tl ++ [cbC])
/-- Subsequent array elements, each preceded by `", "`. -/
def renderArrSep : JsonArr → List Char
  | .nil => []
  | .cons v tl => ',' :: ' ' :: (renderJson v ++ renderArrSep tl)
/-- Subsequent object entries, each preceded by `", "`. -/
def renderObjSep : JsonObj → List Char
  | .nil => []
  | .cons k v tl =>
    ',' :: ' ' :: (qC :: (escapeString k ++ [qC]) ++ (':' :: ' ' :: renderJson v) ++
      renderObjSep tl)
end

/-- JSON whitespace accepted by the CPython scanner. -/
def isWs (c : Char) : Bool :=
  c = ' ' || c = Char.ofNat 9 || c = Char.ofNat 10 || c = Char.ofNat 13

def skipWs : List Char → List Char
  | [] => []
  | c :: rest => if isWs c then skipWs rest else c :: rest

def isDigit (c : Char) : Bool := 48 ≤ c.toNat && c.toNat ≤ 57

def parseHexDigit (c : Char) : Option Nat :=
  if 48 ≤ c.toNat ∧ c.toNat ≤ 57 then some (c.toNat - 48)
  else if 97 ≤ c.toNat ∧ c.toNat ≤ 102 then some (c.toNat - 87)
  else if 65 ≤ c.toNat ∧ c.toNat ≤ 70 then some (c.toNat - 55)
  else none

def parseHex4 : List Char → Option (Nat × List Char)
  | a :: b :: c :: d :: rest =>
    match parseHexDigit a, parseHexDigit b, parseHexDigit c, parseHexDigit d with
    | some x, some y, some z, some w => some (x * 4096 + y * 256 + z * 16 + w, rest)
    | _, _, _, _ => none
  | _ => none

/-- String scanner (after the opening quote), CPython `scanstring` in
strict mode: raw control characters are rejected, the standard short
escapes and `\uXXXX` (with surrogate-pair recombination) are accepted.
Divergence from CPython kept deliberately small: a lone surrogate escape
is rejected here (it cannot form a Unicode scalar value and could never
be re-encoded to UTF-8 by the sender). -/
def parseStringBody : Nat → List Char → Option (List Char × List Char)
  | 0, _ => none
  | _ + 1, [] => none
  | fuel + 1, c :: rest =>
    if c = qC then some ([], rest)
    else if c = bsC then
      match rest with
      | [] => none
      | e :: rest2 =>
        if e = qC then
          (parseStringBody fuel rest2).map (fun p => (qC :: p.1, p.2))
        else if e = bsC then
          (parseStringBody fuel rest2).map (fun p => (bsC :: p.1, p.2))
        else if e = '/' then
          (parseStringBody fuel rest2).map (fun p => ('/' :: p.1, p.2))
        else if e = 'b' then
          (parseStringBody fuel rest2).map (fun p => (Char.ofNat 8 :: p.1, p.2))
        else if e = 't' then
          (parseStringBody fuel rest2).map (fun p => (Char.ofNat 9 :: p.1, p.2))
        else if e = 'n' then
          (parseStringBody fuel rest2).map (fun p => (Char.ofNat 10 :: p.1, p.2))
        else if e = 'f' then
          (parseStringBody fuel rest2).map (fun p => (Char.ofNat 12 :: p.1, p.2))
        else if e = 'r' then
          (parseStringBody fuel rest2).map (fun p => (Char.ofNat 13 :: p.1, p.2))
        else if e = 'u' then
          match parseHex4 rest2 with
          | none => none
          | some (n, rest3) =>
            if 55296 ≤ n ∧ n < 56320 then
              match rest3 with
              | u1 :: u2 :: rest4 =>
                if u1 = bsC ∧ u2 = 'u' then
                  match parseHex4 rest4 with
                  | none => none
                  | some (n2, rest5) =>
                    if 56320 ≤ n2 ∧ n2 < 57344 then
                      (parseStringBody fuel rest5).map (fun p =>
                        (Char.ofNat (65536 + (n - 55296) * 1024 + (n2 - 56320)) :: p.1,
                          p.2))
                    else none
                else none
              | _ => none
            else if 56320 ≤ n ∧ n < 57344 then none
            else (parseStringBody fuel rest3).map (fun p => (Char.ofNat n :: p.1, p.2))
        else none
    else if c.toNat < 32 then none
    else (parseStringBody fuel rest).map (fun p => (c :: p.1, p.2))

/-- Greedy run of decimal digits, folded into an accumulator. -/
def parseDigitsAux : Nat → List Char → Nat → Nat × List Char
  | 0, s, acc => (acc, s)
  | _ + 1, [], acc => (acc, [])
  | fuel + 1, c :: rest, acc =>
    if isDigit c then parseDigitsAux fuel rest (acc * 10 + (c.toNat - 48))
    else (acc, c :: rest)

/-- Unsigned integer literal per the JSON number grammar
(`0` or a nonzero digit followed by digits). -/
def parseNatNum : List Char → Option (Nat × List Char)
  | [] => none
  | c :: rest =>
    if c = '0' then some (0, rest)
    else if isDigit c then
      some (parseDigitsAux (rest.length + 1) rest (c.toNat - 48))
    else none

/-- Integer literal with optional leading minus.  Fractions and exponents
are not modelled (numbers are integers in this embedding). -/
def parseNumber : List Char → Option (Int × List Char)
  | [] => none
  | c :: rest =>
    if c = '-' then (parseNatNum rest).map (fun p => (-(p.1 : Int), p.2))
    else (parseNatNum (c :: rest)).map (fun p => ((p.1 : Int), p.2))

mutual
/-- Value scanner (CPython `scan_once` preceded by whitespace skipping).
Fuel decreases on every nested call; `input length + 1` is always
sufficient (shown via `jsize` below). -/
def parseValue : Nat → List Char → Option (Json × List Char)
  | 0, _ => none
  | fuel + 1, s0 =>
    match skipWs s0 with
    | [] => none
    | c :: rest =>
      if c = qC then
        (parseStringBody (rest.length + 1) rest).map (fun p => (Json.str p.1, p.2))
      else if c = obC then
        match skipWs rest with
        | [] => none
        | d :: rest2 =>
          if d = cbC then some (Json.obj .nil, rest2)
          else
            (parseObjItems fuel (d :: rest2)).map (fun p => (Json.obj p.1, p.2))
      else if c = '[' then
        match skipWs rest with
        | [] => none
        | d :: rest2 =>
          if d = ']' then some (Json.arr .nil, rest2)
          else
            (parseArrItems fuel (d :: rest2)).map (fun p => (Json.arr p.1, p.2))
      else if c = 't' then
        match rest with
        | 'r' :: 'u' :: 'e' :: r => some (Json.bool true, r)
        | _ => none
      else if c = 'f' then
        match rest with
        | 'a' :: 'l' :: 's' :: 'e' :: r => some (Json.bool false, r)
        | _ => none
      else if c = 'n' then
        match rest with
        | 'u' :: 'l' :: 'l' :: r => some (Json.null, r)
        | _ => none
      else if c = '-' || isDigit c then
        (parseNumber (c :: rest)).map (fun p => (Json.num p.1, p.2))
      else none
/-- One or more array elements followed by `]`. -/
def parseArrItems : Nat → List Char → Option (JsonArr × List Char)
  | 0, _ => none
  | fuel + 1, s =>
    match parseValue fuel s with
    | none => none
    | some (v, r) =>
      match skipWs r with
      | ']' :: rest => some (JsonArr.cons v .nil, rest)
      | ',' :: rest =>
        (parseArrItems fuel rest).map (fun p => (JsonArr.cons v p.1, p.2))
      | _ => none
/-- One or more `"key": value` entries followed by the closing bracket. -/
def parseObjItems : Nat → List Char → Option (JsonObj × List Char)
  | 0, _ => none
  | fuel + 1, s =>
    match skipWs s with
    | [] => none
    | c :: rest =>
      if c = qC then
        match parseStringBody (rest.length + 1) rest with
        | none => none
        | some (key, r) =>
          match skipWs r with
          | ':' :: r3 =>
            match parseValue fuel r3 with
            | none => none
            | some (v, r4) =>
              match skipWs r4 with
              | d :: rest6 =>
                if d = cbC then some (JsonObj.cons key v .nil, rest6)
                else if d = ',' then
                  (parseObjItems fuel rest6).map (fun p =>
                    (JsonObj.cons key v p.1, p.2))
                else none
              | [] => none
          | _ => none
      else none
end

/-- `json.loads`: parse one value and require only whitespace after it. -/
def jsonLoads (s : List Char) : Option Json :=
  match parseValue (s.length + 1) s with
  | none => none
  | some (v, rest) => if skipWs rest = [] then some v else none

/-! ### Round-trip: `loads (dumps v) = v` -/

theorem charOfNat_toNat {n : Nat} (h : n.isValidChar) : (Char.ofNat n).toNat = n := by
  unfold Char.ofNat
  simp [Char.ofNatAux, h]
  rfl

theorem charOfNat_toNat_lt {n : Nat} (h : n < 55296) : (Char.ofNat n).toNat = n :=
  charOfNat_toNat (Or.inl h)

theorem char_toNat_valid (c : Char) :
    c.toNat < 55296 ∨ (57344 ≤ c.toNat ∧ c.toNat < 1114112) := by
  have h := c.valid
  rcases h with h | h
  · exact Or.inl h
  · exact Or.inr h

theorem char_ne_of_toNat_ne {c d : Char} (h : c.toNat ≠ d.toNat) : c ≠ d :=
  fun he => h (congrArg Char.toNat he)

theorem hexDigit_toNat {d : Nat} (h : d < 16) :
    (hexDigit d).toNat = if d < 10 then 48 + d else 87 + d := by
  unfold hexDigit
  by_cases h10 : d < 10
  · rw [if_pos h10, if_pos h10, charOfNat_toNat_lt (by omega)]
  · rw [if_neg h10, if_neg h10, charOfNat_toNat_lt (by omega)]

theorem parseHexDigit_hexDigit {d : Nat} (h : d < 16) :
    parseHexDigit (hexDigit d) = some d := by
  unfold parseHexDigit
  rw [hexDigit_toNat h]
  by_cases h10 : d < 10
  · rw [if_pos h10, if_pos (by omega)]
    congr 1
    omega
  · rw [if_neg h10, if_neg (by omega), if_pos (by omega)]
    congr 1
    omega

theorem parseHex4_hex4 {n : Nat} (h : n < 65536) (rest : List Char) :
    parseHex4 (hex4 n ++ rest) = some (n, rest) := by
  show parseHex4 (hexDigit (n / 4096 % 16) :: hexDigit (n / 256 % 16) ::
    hexDigit (n / 16 % 16) :: hexDigit (n % 16) :: rest) = some (n, rest)
  rw [parseHex4]
  rw [parseHexDigit_hexDigit (by omega), parseHexDigit_hexDigit (by omega),
    parseHexDigit_hexDigit (by omega), parseHexDigit_hexDigit (by omega)]
  simp only
  have harith : n / 4096 % 16 * 4096 + n / 256 % 16 * 256 + n / 16 % 16 * 16 + n % 16
      = n := by omega
  rw [harith]

theorem escapeChar_length_pos (c : Char) : 0 < (escapeChar c).length := by
  unfold escapeChar
  repeat' split
  all_goals simp

theorem escapeString_length_ge (s : List Char) :
    s.length ≤ (escapeString s).length := by
  induction s with
  | nil => simp [escapeString]
  | cons c rest ih =>
    have := escapeChar_length_pos c
    simp only [escapeString, List.length_append, List.length_cons]
    omega

/-- The list does not begin with a decimal digit (delimits a greedy
number parse). -/
def noDigitHead (l : List Char) : Prop :=
  match l with
  | [] => True
  | c :: _ => isDigit c = false

theorem psb_surrogate_step {fuel : Nat} {tail tail2 rest3 rest5 : List Char}
    {n n2 : Nat}
    (hhex : parseHex4 tail = some (n, rest3)) (hn : 55296 ≤ n ∧ n < 56320)
    (hshape : rest3 = bsC :: 'u' :: tail2)
    (hhex2 : parseHex4 tail2 = some (n2, rest5)) (hn2 : 56320 ≤ n2 ∧ n2 < 57344) :
    parseStringBody (fuel + 1) (bsC :: 'u' :: tail) =
      (parseStringBody fuel rest5).map
        (fun p => (Char.ofNat (65536 + (n - 55296) * 1024 + (n2 - 56320)) :: p.1, p.2)) := by
  subst hshape
  simp +decide [parseStringBody, hhex, hhex2, hn, hn2]

theorem parseStringBody_escape :
    ∀ (s rest : List Char) (fuel : Nat), s.length < fuel →
      parseStringBody fuel (escapeString s ++ (qC :: rest)) = some (s, rest) := by
  intro s
  induction s with
  | nil =>
    intro rest fuel hf
    obtain ⟨f, rfl⟩ : ∃ f, fuel = f + 1 := ⟨fuel - 1, by omega⟩
    show parseStringBody (f + 1) (qC :: rest) = some ([], rest)
    simp [parseStringBody]
  | cons c cs ih =>
    intro rest fuel hf
    obtain ⟨f, rfl⟩ : ∃ f, fuel = f + 1 := ⟨fuel - 1, by omega⟩
    have hcs : parseStringBody f (escapeString cs ++ (qC :: rest)) = some (cs, rest) :=
      ih rest f (by simp at hf; omega)
    show parseStringBody (f + 1) (escapeString (c :: cs) ++ (qC :: rest)) =
      some (c :: cs, rest)
    rw [escapeString, List.append_assoc]
    by_cases h1 : c = qC
    · subst h1
      rw [show escapeChar qC = [bsC, qC] from by rw [escapeChar, if_pos rfl]]
      simp +decide [parseStringBody, hcs]
    · by_cases h2 : c = bsC
      · subst h2
        rw [show escapeChar bsC = [bsC, bsC] from by
          rw [escapeChar, if_neg (by decide), if_pos rfl]]
        simp +decide [parseStringBody, hcs]
      · by_cases h3 : c = Char.ofNat 8
        · subst h3
          rw [show escapeChar (Char.ofNat 8) = [bsC, 'b'] from by
            rw [escapeChar, if_neg (by decide), if_neg (by decide), if_pos rfl]]
          simp +decide [parseStringBody, hcs]
        · by_cases h4 : c = Char.ofNat 9
          · subst h4
            rw [show escapeChar (Char.ofNat 9) = [bsC, 't'] from by
              rw [escapeChar, if_neg (by decide), if_neg (by decide),
                if_neg (by decide), if_pos rfl]]
            simp +decide [parseStringBody, hcs]
          · by_cases h5 : c = Char.ofNat 10
            · subst h5
              rw [show escapeChar (Char.ofNat 10) = [bsC, 'n'] from by
                rw [escapeChar, if_neg (by decide), if_neg (by decide),
                  if_neg (by decide), if_neg (by decide), if_pos rfl]]
              simp +decide [parseStringBody, hcs]
            · by_cases h6 : c = Char.ofNat 12
              · subst h6
                rw [show escapeChar (Char.ofNat 12) = [bsC, 'f'] from by
                  rw [escapeChar, if_neg (by decide), if_neg (by decide),
                    if_neg (by decide), if_neg (by decide), if_neg (by decide),
                    if_pos rfl]]
                simp +decide [parseStringBody, hcs]
              · by_cases h7 : c = Char.ofNat 13
                · subst h7
                  rw [show escapeChar (Char.ofNat 13) = [bsC, 'r'] from by
                    rw [escapeChar, if_neg (by decide), if_neg (by decide),
                      if_neg (by decide), if_neg (by decide), if_neg (by decide),
                      if_neg (by decide), if_pos rfl]]
                  simp +decide [parseStringBody, hcs]
                · by_cases h8 : c.toNat < 32
                  · -- other control characters: \u00XX
                    rw [show escapeChar c = bsC :: 'u' :: hex4 c.toNat from by
                      rw [escapeChar, if_neg h1, if_neg h2, if_neg h3, if_neg h4,
                        if_neg h5, if_neg h6, if_neg h7, if_pos h8]]
                    have hhex : parseHex4 (hex4 c.toNat ++
                        (escapeString cs ++ (qC :: rest))) =
                        some (c.toNat, escapeString cs ++ (qC :: rest)) :=
                      parseHex4_hex4 (by omega) _
                    have hs1 : ¬ (55296 ≤ c.toNat ∧ c.toNat < 56320) := by omega
                    have hs2 : ¬ (56320 ≤ c.toNat ∧ c.toNat < 57344) := by omega
                    simp +decide [parseStringBody, hhex, hs1, hs2, hcs, Char.ofNat_toNat]
                  · by_cases h9 : c.toNat ≤ 126
                    · -- printable ASCII, emitted verbatim
                      rw [show escapeChar c = [c] from by
                        rw [escapeChar, if_neg h1, if_neg h2, if_neg h3, if_neg h4,
                          if_neg h5, if_neg h6, if_neg h7, if_neg h8, if_pos h9]]
                      simp +decide [parseStringBody, h1, h2, h8, hcs]
                    · rcases char_toNat_valid c with hv | hv
                      · by_cases h10 : c.toNat < 65536
                        · -- BMP non-ASCII: \uXXXX
                          rw [show escapeChar c = bsC :: 'u' :: hex4 c.toNat from by
                            rw [escapeChar, if_neg h1, if_neg h2, if_neg h3,
                              if_neg h4, if_neg h5, if_neg h6, if_neg h7,
                              if_neg h8, if_neg h9, if_pos h10]]
                          have hhex : parseHex4 (hex4 c.toNat ++
                              (escapeString cs ++ (qC :: rest))) =
                              some (c.toNat, escapeString cs ++ (qC :: rest)) :=
                            parseHex4_hex4 (by omega) _
                          have hs1 : ¬ (55296 ≤ c.toNat ∧ c.toNat < 56320) := by
                            omega
                          have hs2 : ¬ (56320 ≤ c.toNat ∧ c.toNat < 57344) := by
                            omega
                          simp +decide [parseStringBody, hhex, hs1, hs2, hcs,
                            Char.ofNat_toNat]
                        · omega
                      · by_cases h10 : c.toNat < 65536
                        · -- BMP non-ASCII above the surrogate block: \uXXXX
                          rw [show escapeChar c = bsC :: 'u' :: hex4 c.toNat from by
                            rw [escapeChar, if_neg h1, if_neg h2, if_neg h3,
                              if_neg h4, if_neg h5, if_neg h6, if_neg h7,
                              if_neg h8, if_neg h9, if_pos h10]]
                          have hhex : parseHex4 (hex4 c.toNat ++
                              (escapeString cs ++ (qC :: rest))) =
                              some (c.toNat, escapeString cs ++ (qC :: rest)) :=
                            parseHex4_hex4 (by omega) _
                          have hs1 : ¬ (55296 ≤ c.toNat ∧ c.toNat < 56320) := by
                            omega
                          have hs2 : ¬ (56320 ≤ c.toNat ∧ c.toNat < 57344) := by
                            omega
                          simp +decide [parseStringBody, hhex, hs1, hs2, hcs,
                            Char.ofNat_toNat]
                        · -- astral plane: surrogate pair
                          rw [show escapeChar c =
                              (bsC :: 'u' :: hex4 (55296 + (c.toNat - 65536) / 1024)) ++
                                (bsC :: 'u' :: hex4 (56320 + (c.toNat - 65536) % 1024))
                              from by
                            rw [escapeChar, if_neg h1, if_neg h2, if_neg h3,
                              if_neg h4, if_neg h5, if_neg h6, if_neg h7,
                              if_neg h8, if_neg h9, if_neg h10]]
                          have hv2 : c.toNat < 1114112 := by omega
                          simp only [List.cons_append, List.append_assoc]
                          rw [psb_surrogate_step
                            (parseHex4_hex4 (by omega) _) (by omega) rfl
                            (parseHex4_hex4 (by omega) _) (by omega), hcs]
                          show some (Char.ofNat (65536 +
                            (55296 + (c.toNat - 65536) / 1024 - 55296) * 1024 +
                            (56320 + (c.toNat - 65536) % 1024 - 56320)) :: cs, rest) =
                            some (c :: cs, rest)
                          rw [show 65536 +
                            (55296 + (c.toNat - 65536) / 1024 - 55296) * 1024 +
                            (56320 + (c.toNat - 65536) % 1024 - 56320) = c.toNat from by
                              omega,
                            Char.ofNat_toNat]

/-- Digit-fold value of a digit string on top of an accumulator
(the accumulation performed by `parseDigitsAux`). -/
def valDigits : Nat → List Char → Nat
  | acc, [] => acc
  | acc, c :: rest => valDigits (acc * 10 + (c.toNat - 48)) rest

theorem digitChar_toNat {d : Nat} (h : d < 10) : (digitChar d).toNat = 48 + d := by
  unfold digitChar
  exact charOfNat_toNat_lt (by omega)

theorem isDigit_digitChar {d : Nat} (h : d < 10) : isDigit (digitChar d) = true := by
  simp [isDigit, digitChar_toNat h]
  omega

theorem natDigitsAux_fuel_eq :
    ∀ (n fuel fuel' : Nat), n < fuel → n < fuel' →
      natDigitsAux fuel n = natDigitsAux fuel' n := by
  intro n
  induction n using Nat.strong_induction_on with
  | _ n ih =>
    intro fuel fuel' hf hf'
    obtain ⟨f, rfl⟩ : ∃ f, fuel = f + 1 := ⟨fuel - 1, by omega⟩
    obtain ⟨g, rfl⟩ : ∃ g, fuel' = g + 1 := ⟨fuel' - 1, by omega⟩
    rw [natDigitsAux, natDigitsAux]
    by_cases h10 : n < 10
    · rw [if_pos h10, if_pos h10]
    · rw [if_neg h10, if_neg h10, ih (n / 10) (by omega) f g (by omega) (by omega)]

theorem renderNat_split {n : Nat} (h : 10 ≤ n) :
    renderNat n = renderNat (n / 10) ++ [digitChar (n % 10)] := by
  show natDigitsAux (n + 1) n = _
  rw [natDigitsAux, if_neg (by omega)]
  rw [natDigitsAux_fuel_eq (n / 10) n (n / 10 + 1) (by omega) (by omega)]
  rfl

theorem renderNat_single {n : Nat} (h : n < 10) : renderNat n = [digitChar n] := by
  show natDigitsAux (n + 1) n = _
  rw [natDigitsAux, if_pos h]

theorem renderNat_digits : ∀ n : Nat, ∀ c ∈ renderNat n, isDigit c = true := by
  intro n
  induction n using Nat.strong_induction_on with
  | _ n ih =>
    by_cases h10 : n < 10
    · rw [renderNat_single h10]
      intro c hc
      simp at hc
      subst hc
      exact isDigit_digitChar (by omega)
    · rw [renderNat_split (by omega)]
      intro c hc
      rcases List.mem_append.mp hc with hm | hm
      · exact ih (n / 10) (by omega) c hm
      · simp at hm
        subst hm
        exact isDigit_digitChar (by omega)

theorem renderNat_ne_nil (n : Nat) : renderNat n ≠ [] := by
  by_cases h10 : n < 10
  · rw [renderNat_single h10]
    simp
  · rw [renderNat_split (by omega)]
    simp

theorem valDigits_append (xs ys : List Char) :
    ∀ acc, valDigits acc (xs ++ ys) = valDigits (valDigits acc xs) ys := by
  induction xs with
  | nil => intro acc; rfl
  | cons c rest ih =>
    intro acc
    show valDigits (acc * 10 + (c.toNat - 48)) (rest ++ ys) = _
    rw [ih]
    rfl

theorem valDigits_renderNat : ∀ n : Nat, valDigits 0 (renderNat n) = n := by
  intro n
  induction n using Nat.strong_induction_on with
  | _ n ih =>
    by_cases h10 : n < 10
    · rw [renderNat_single h10]
      show valDigits (0 * 10 + ((digitChar n).toNat - 48)) [] = n
      rw [digitChar_toNat h10]
      show 0 * 10 + (48 + n - 48) = n
      omega
    · rw [renderNat_split (by omega), valDigits_append, ih (n / 10) (by omega)]
      show valDigits (n / 10) [digitChar (n % 10)] = n
      show valDigits (n / 10 * 10 + ((digitChar (n % 10)).toNat - 48)) [] = n
      rw [digitChar_toNat (by omega)]
      show n / 10 * 10 + (48 + n % 10 - 48) = n
      omega

theorem renderNat_head_ne_zero :
    ∀ n : Nat, 0 < n → ∀ c cs, renderNat n = c :: cs → ¬ c = '0' := by
  intro n
  induction n using Nat.strong_induction_on with
  | _ n ih =>
    intro hn c cs heq
    by_cases h10 : n < 10
    · rw [renderNat_single h10] at heq
      obtain ⟨rfl, -⟩ : c = digitChar n ∧ cs = [] := by
        constructor <;> simp_all
      intro hc
      have h1 : (digitChar n).toNat = 48 + n := digitChar_toNat h10
      rw [hc] at h1
      have : ('0' : Char).toNat = 48 := rfl
      omega
    · rw [renderNat_split (by omega)] at heq
      obtain ⟨c0, cs0, hsplit⟩ : ∃ c0 cs0, renderNat (n / 10) = c0 :: cs0 := by
        cases hr : renderNat (n / 10) with
        | nil => exact absurd hr (renderNat_ne_nil _)
        | cons a b => exact ⟨a, b, rfl⟩
      rw [hsplit] at heq
      simp at heq
      obtain ⟨rfl, -⟩ := heq
      exact ih (n / 10) (by omega) (by omega) _ cs0 hsplit

theorem parseDigitsAux_spec :
    ∀ (ds rest : List Char) (acc fuel : Nat),
      (∀ c ∈ ds, isDigit c = true) → ds.length ≤ fuel → noDigitHead rest →
      parseDigitsAux fuel (ds ++ rest) acc = (valDigits acc ds, rest) := by
  intro ds
  induction ds with
  | nil =>
    intro rest acc fuel _ _ hrest
    cases fuel with
    | zero => rfl
    | succ f =>
      cases rest with
      | nil => rfl
      | cons c cs =>
        show parseDigitsAux (f + 1) (c :: cs) acc = (acc, c :: cs)
        rw [parseDigitsAux]
        rw [if_neg (by simp [noDigitHead] at hrest; simp [hrest])]
  | cons d ds' ih =>
    intro rest acc fuel hds hlen hrest
    obtain ⟨f, rfl⟩ : ∃ f, fuel = f + 1 := ⟨fuel - 1, by simp at hlen; omega⟩
    show parseDigitsAux (f + 1) (d :: (ds' ++ rest)) acc = _
    rw [parseDigitsAux, if_pos (hds d (by simp))]
    exact ih rest _ f (fun c hc => hds c (by simp [hc])) (by simp at hlen; omega) hrest

theorem parseNatNum_renderNat (n : Nat) (rest : List Char) (hrest : noDigitHead rest) :
    parseNatNum (renderNat n ++ rest) = some (n, rest) := by
  obtain ⟨c, cs, hsplit⟩ : ∃ c cs, renderNat n = c :: cs := by
    cases hr : renderNat n with
    | nil => exact absurd hr (renderNat_ne_nil _)
    | cons a b => exact ⟨a, b, rfl⟩
  rw [hsplit]
  show parseNatNum (c :: (cs ++ rest)) = some (n, rest)
  rcases Nat.eq_zero_or_pos n with rfl | hpos
  · rw [renderNat_single (by omega)] at hsplit
    obtain ⟨rfl, rfl⟩ : c = digitChar 0 ∧ cs = [] := by constructor <;> simp_all
    rw [parseNatNum, if_pos (by rfl)]
    rfl
  · have hc0 : ¬ c = '0' := renderNat_head_ne_zero n hpos c cs hsplit
    have hcd : isDigit c = true := renderNat_digits n c (by rw [hsplit]; simp)
    rw [parseNatNum, if_neg hc0, if_pos hcd]
    have hall : ∀ x ∈ cs, isDigit x = true := fun x hx =>
      renderNat_digits n x (by rw [hsplit]; simp [hx])
    rw [parseDigitsAux_spec cs rest (c.toNat - 48) ((cs ++ rest).length + 1) hall
      (by simp only [List.length_append]; omega) hrest]
    have hval : valDigits (c.toNat - 48) cs = n := by
      have h1 := valDigits_renderNat n
      rw [hsplit] at h1
      show valDigits (c.toNat - 48) cs = n
      have h2 : valDigits 0 (c :: cs) = valDigits (0 * 10 + (c.toNat - 48)) cs := rfl
      rw [h2] at h1
      simpa using h1
    rw [hval]

theorem parseNumber_renderInt (i : Int) (rest : List Char) (hrest : noDigitHead rest) :
    parseNumber (renderInt i ++ rest) = some (i, rest) := by
  by_cases hneg : i < 0
  · rw [renderInt, if_pos hneg]
    show parseNumber ('-' :: (renderNat (-i).toNat ++ rest)) = some (i, rest)
    rw [parseNumber, if_pos rfl, parseNatNum_renderNat _ _ hrest]
    show some (-(((-i).toNat : Nat) : Int), rest) = some (i, rest)
    have : (((-i).toNat : Nat) : Int) = -i := by omega
    rw [this]
    simp
  · rw [renderInt, if_neg hneg]
    obtain ⟨c, cs, hsplit⟩ : ∃ c cs, renderNat i.toNat = c :: cs := by
      cases hr : renderNat i.toNat with
      | nil => exact absurd hr (renderNat_ne_nil _)
      | cons a b => exact ⟨a, b, rfl⟩
    have hcd : isDigit c = true := renderNat_digits _ c (by rw [hsplit]; simp)
    have hcm : ¬ c = '-' := by
      intro hc
      rw [hc] at hcd
      simp [isDigit] at hcd
    rw [hsplit]
    show parseNumber (c :: (cs ++ rest)) = some (i, rest)
    rw [parseNumber, if_neg hcm]
    have := parseNatNum_renderNat i.toNat rest hrest
    rw [hsplit] at this
    show (parseNatNum (c :: (cs ++ rest))).map (fun p => ((p.1 : Int), p.2)) =
      some (i, rest)
    rw [show (c :: (cs ++ rest) : List Char) = (c :: cs) ++ rest from rfl, this]
    show some ((i.toNat : Int), rest) = some (i, rest)
    have : ((i.toNat : Nat) : Int) = i := by omega
    rw [this]

mutual
/-- Fuel needed by `parseValue` on the rendering of a value. -/
def jsize : Json → Nat
  | .null => 1
  | .bool _ => 1
  | .num _ => 1
  | .str _ => 1
  | .arr items => jsizeArr items + 1
  | .obj fields => jsizeObj fields + 1
def jsizeArr : JsonArr → Nat
  | .nil => 0
  | .cons v tl => jsize v + jsizeArr tl + 1
def jsizeObj : JsonObj → Nat
  | .nil => 0
  | .cons _ v tl => jsize v + jsizeObj tl + 1
end

theorem jsize_pos : ∀ v : Json, 1 ≤ jsize v := by
  intro v
  cases v <;> simp [jsize]

theorem skipWs_cons_of_not_ws {c : Char} (h : isWs c = false) (t : List Char) :
    skipWs (c :: t) = c :: t := by
  rw [skipWs, h]
  simp

theorem skipWs_cons_of_ws {c : Char} (h : isWs c = true) (t : List Char) :
    skipWs (c :: t) = skipWs t := by
  rw [skipWs, h]
  simp

theorem isWs_of_digit {c : Char} (h : isDigit c = true) : isWs c = false := by
  simp [isDigit] at h
  have h1 : ¬ c = ' ' := char_ne_of_toNat_ne (by simp +decide; omega)
  have h2 : ¬ c = Char.ofNat 9 := char_ne_of_toNat_ne (by simp +decide; omega)
  have h3 : ¬ c = Char.ofNat 10 := char_ne_of_toNat_ne (by simp +decide; omega)
  have h4 : ¬ c = Char.ofNat 13 := char_ne_of_toNat_ne (by simp +decide; omega)
  simp [isWs, h1, h2, h3, h4]

theorem renderInt_head (i : Int) :
    ∃ c cs, renderInt i = c :: cs ∧ (c = '-' ∨ isDigit c = true) := by
  by_cases hneg : i < 0
  · exact ⟨'-', renderNat (-i).toNat, by rw [renderInt, if_pos hneg], Or.inl rfl⟩
  · obtain ⟨c, cs, hsplit⟩ : ∃ c cs, renderNat i.toNat = c :: cs := by
      cases hr : renderNat i.toNat with
      | nil => exact absurd hr (renderNat_ne_nil _)
      | cons a b => exact ⟨a, b, rfl⟩
    refine ⟨c, cs, by rw [renderInt, if_neg hneg, hsplit], Or.inr ?_⟩
    exact renderNat_digits _ c (by rw [hsplit]; simp)

theorem renderJson_head (v : Json) :
    ∃ c cs, renderJson v = c :: cs ∧ isWs c = false ∧ ¬c = ']' ∧ ¬c = cbC := by
  cases v with
  | null =>
    refine ⟨'n', _, rfl, ?_, ?_, ?_⟩ <;> decide
  | bool b =>
    cases b with
    | true =>
      refine ⟨'t', _, rfl, ?_, ?_, ?_⟩ <;> decide
    | false =>
      refine ⟨'f', _, rfl, ?_, ?_, ?_⟩ <;> decide
  | num n =>
    obtain ⟨c, cs, hsplit, hc⟩ := renderInt_head n
    refine ⟨c, cs, hsplit, ?_, ?_, ?_⟩
    · rcases hc with rfl | hd
      · decide
      · exact isWs_of_digit hd
    · rcases hc with rfl | hd
      · decide
      · simp [isDigit] at hd
        exact char_ne_of_toNat_ne (by simp +decide; omega)
    · rcases hc with rfl | hd
      · decide
      · simp [isDigit] at hd
        have hcb : cbC.toNat = 125 := rfl
        exact char_ne_of_toNat_ne (by omega)
  | str s =>
    refine ⟨qC, _, rfl, ?_, ?_, ?_⟩ <;> decide
  | arr items =>
    cases items with
    | nil =>
      refine ⟨'[', _, rfl, ?_, ?_, ?_⟩ <;> decide
    | cons v tl =>
      refine ⟨'[', _, rfl, ?_, ?_, ?_⟩ <;> decide
  | obj fields =>
    cases fields with
    | nil =>
      refine ⟨obC, _, rfl, ?_, ?_, ?_⟩ <;> decide
    | cons k v tl =>
      refine ⟨obC, _, rfl, ?_, ?_, ?_⟩ <;> decide

theorem skipWs_render (v : Json) (t : List Char) :
    skipWs (renderJson v ++ t) = renderJson v ++ t := by
  obtain ⟨c, cs, hsplit, hws, -, -⟩ := renderJson_head v
  rw [hsplit]
  exact skipWs_cons_of_not_ws hws _

theorem parseValue_ws (fuel : Nat) (t : List Char) :
    parseValue fuel (' ' :: t) = parseValue fuel t := by
  cases fuel with
  | zero => rfl
  | succ f =>
    show parseValue (f + 1) (' ' :: t) = parseValue (f + 1) t
    simp only [parseValue]
    rw [skipWs_cons_of_ws (by decide) t]

theorem parseArrItems_ws (fuel : Nat) (t : List Char) :
    parseArrItems fuel (' ' :: t) = parseArrItems fuel t := by
  cases fuel with
  | zero => rfl
  | succ f =>
    simp only [parseArrItems]
    rw [parseValue_ws]

theorem parseObjItems_ws (fuel : Nat) (t : List Char) :
    parseObjItems fuel (' ' :: t) = parseObjItems fuel t := by
  cases fuel with
  | zero => rfl
  | succ f =>
    simp only [parseObjItems]
    rw [skipWs_cons_of_ws (by decide) t]

/-- The continuation after a rendered value inside a composite rendering:
empty, or starting with a separator or closing bracket. -/
def goodTail (l : List Char) : Prop :=
  match l with
  | [] => True
  | c :: _ => c = ',' ∨ c = ']' ∨ c = cbC

theorem goodTail_noDigitHead {l : List Char} (h : goodTail l) : noDigitHead l := by
  cases l with
  | nil => trivial
  | cons c cs =>
    rcases h with rfl | rfl | rfl
    · show isDigit ',' = false
      decide
    · show isDigit ']' = false
      decide
    · show isDigit cbC = false
      decide

theorem parseValue_quote_step (fuel : Nat) (t : List Char) :
    parseValue (fuel + 1) (qC :: t) =
      (parseStringBody (t.length + 1) t).map (fun p => (Json.str p.1, p.2)) := by
  simp +decide [parseValue, skipWs]

theorem parseValue_arr_step (F : Nat) (c0 : Char) (cs0 : List Char)
    (hws : isWs c0 = false) (hbr : ¬ c0 = ']') :
    parseValue (F + 1) ('[' :: (c0 :: cs0)) =
      (parseArrItems F (c0 :: cs0)).map (fun p => (Json.arr p.1, p.2)) := by
  simp +decide [parseValue, skipWs, hws, hbr]

theorem parseValue_obj_step (F : Nat) (t : List Char) :
    parseValue (F + 1) (obC :: (qC :: t)) =
      (parseObjItems F (qC :: t)).map (fun p => (Json.obj p.1, p.2)) := by
  simp +decide [parseValue, skipWs]

theorem parseValue_num_step (F : Nat) (c : Char) (cs : List Char)
    (hc : c = '-' ∨ isDigit c = true) :
    parseValue (F + 1) (c :: cs) =
      (parseNumber (c :: cs)).map (fun p => (Json.num p.1, p.2)) := by
  have hfacts : isWs c = false ∧ ¬c = qC ∧ ¬c = obC ∧ ¬c = '[' ∧
      ¬c = 't' ∧ ¬c = 'f' ∧ ¬c = 'n' := by
    rcases hc with rfl | hd
    · refine ⟨by decide, by decide, ?_, by decide, by decide, by decide, by decide⟩
      show ¬ ('-' : Char) = obC
      decide
    · have hd' : 48 ≤ c.toNat ∧ c.toNat ≤ 57 := by
        simp [isDigit] at hd
        omega
      have e1 : qC.toNat = 34 := rfl
      have e2 : obC.toNat = 123 := rfl
      have e3 : ('[' : Char).toNat = 91 := rfl
      have e4 : ('t' : Char).toNat = 116 := rfl
      have e5 : ('f' : Char).toNat = 102 := rfl
      have e6 : ('n' : Char).toNat = 110 := rfl
      exact ⟨isWs_of_digit hd, char_ne_of_toNat_ne (by omega),
        char_ne_of_toNat_ne (by omega), char_ne_of_toNat_ne (by omega),
        char_ne_of_toNat_ne (by omega), char_ne_of_toNat_ne (by omega),
        char_ne_of_toNat_ne (by omega)⟩
  obtain ⟨hws, hq, hob, hbr, ht, hf, hn⟩ := hfacts
  have hcond : (c = '-' || isDigit c) = true := by
    rcases hc with rfl | hd
    · simp
    · simp [hd]
  simp +decide [parseValue, skipWs, hws, hq, hob, hbr, ht, hf, hn, hcond]

/-- Main parsing round-trip, by induction on fuel: a rendered value (and
the rendered element / entry lists inside composites) parses back to
itself, leaving the continuation untouched. -/
theorem parse_render_all : ∀ fuel : Nat,
    (∀ (v : Json) (rest : List Char), jsize v ≤ fuel → goodTail rest →
      parseValue fuel (renderJson v ++ rest) = some (v, rest)) ∧
    (∀ (v : Json) (tl : JsonArr) (rest : List Char),
      jsize v + jsizeArr tl + 1 ≤ fuel → goodTail rest →
      parseArrItems fuel (renderJson v ++ (renderArrSep tl ++ (']' :: rest))) =
        some (JsonArr.cons v tl, rest)) ∧
    (∀ (k : List Char) (v : Json) (tl : JsonObj) (rest : List Char),
      jsize v + jsizeObj tl + 1 ≤ fuel → goodTail rest →
      parseObjItems fuel (qC :: (escapeString k ++ (qC :: (':' :: (' ' ::
          (renderJson v ++ (renderObjSep tl ++ (cbC :: rest)))))))) =
        some (JsonObj.cons k v tl, rest)) := by
  intro fuel
  induction fuel with
  | zero =>
    refine ⟨?_, ?_, ?_⟩
    · intro v rest hsz _
      have := jsize_pos v
      omega
    · intro v tl rest hsz _
      omega
    · intro k v tl rest hsz _
      omega
  | succ F ih =>
    obtain ⟨ihP, ihQ, ihR⟩ := ih
    have hP : ∀ (v : Json) (rest : List Char), jsize v ≤ F + 1 → goodTail rest →
        parseValue (F + 1) (renderJson v ++ rest) = some (v, rest) := by
      intro v rest hsz htail
      cases v with
      | null =>
        show parseValue (F + 1) ('n' :: 'u' :: 'l' :: 'l' :: rest) = _
        simp +decide [parseValue, skipWs]
      | bool b =>
        cases b with
        | true =>
          show parseValue (F + 1) ('t' :: 'r' :: 'u' :: 'e' :: rest) = _
          simp +decide [parseValue, skipWs]
        | false =>
          show parseValue (F + 1) ('f' :: 'a' :: 'l' :: 's' :: 'e' :: rest) = _
          simp +decide [parseValue, skipWs]
      | num n =>
        obtain ⟨c, cs, hsplit, hc⟩ := renderInt_head n
        show parseValue (F + 1) (renderInt n ++ rest) = _
        rw [hsplit, List.cons_append, parseValue_num_step F c (cs ++ rest) hc,
          ← List.cons_append, ← hsplit,
          parseNumber_renderInt n rest (goodTail_noDigitHead htail)]
        rfl
      | str s =>
        have hshape : renderJson (.str s) ++ rest =
            qC :: (escapeString s ++ (qC :: rest)) := by
          show (qC :: (escapeString s ++ [qC])) ++ rest = _
          simp
        rw [hshape, parseValue_quote_step,
          parseStringBody_escape s rest _ (by
            have := escapeString_length_ge s
            simp only [List.length_append, List.length_cons]
            omega)]
        rfl
      | arr items =>
        cases items with
        | nil =>
          show parseValue (F + 1) ('[' :: (']' :: rest)) = _
          simp +decide [parseValue, skipWs]
        | cons v tl =>
          have hshape : renderJson (.arr (.cons v tl)) ++ rest =
              '[' :: (renderJson v ++ (renderArrSep tl ++ (']' :: rest))) := by
            show ('[' :: (renderJson v ++ renderArrSep tl ++ [']'])) ++ rest = _
            simp
          rw [hshape]
          obtain ⟨c0, cs0, hhead, hws0, hbr0, hcb0⟩ := renderJson_head v
          rw [hhead, List.cons_append,
            parseValue_arr_step F c0 _ hws0 hbr0,
            ← List.cons_append, ← hhead,
            ihQ v tl rest (by
              have h1 : jsize (Json.arr (JsonArr.cons v tl)) =
                  jsize v + jsizeArr tl + 2 := by
                simp [jsize, jsizeArr]
              omega) htail]
          rfl
      | obj fields =>
        cases fields with
        | nil =>
          show parseValue (F + 1) (obC :: (cbC :: rest)) = _
          simp +decide [parseValue, skipWs]
        | cons k v tl =>
          have hshape : renderJson (.obj (.cons k v tl)) ++ rest =
              obC :: (qC :: (escapeString k ++ (qC :: (':' :: (' ' ::
                (renderJson v ++ (renderObjSep tl ++ (cbC :: rest)))))))) := by
            show (obC :: (qC :: (escapeString k ++ [qC]) ++ (':' :: ' ' ::
              renderJson v) ++ renderObjSep tl ++ [cbC])) ++ rest = _
            simp
          rw [hshape, parseValue_obj_step,
            ihR k v tl rest (by
              have h1 : jsize (Json.obj (JsonObj.cons k v tl)) =
                  jsize v + jsizeObj tl + 2 := by
                simp [jsize, jsizeObj]
              omega) htail]
          rfl
    refine ⟨hP, ?_, ?_⟩
    · intro v tl rest hsz htail
      have htail2 : goodTail (renderArrSep tl ++ (']' :: rest)) := by
        cases tl with
        | nil => exact Or.inr (Or.inl rfl)
        | cons v2 tl2 => exact Or.inl rfl
      have hv := ihP v (renderArrSep tl ++ (']' :: rest)) (by
        have := jsize_pos v
        omega) htail2
      cases tl with
      | nil =>
        simp only [parseArrItems, hv]
        rw [show renderArrSep JsonArr.nil ++ (']' :: rest) = ']' :: rest from rfl,
          skipWs_cons_of_not_ws (by decide)]
        simp +decide
      | cons v2 tl2 =>
        have hrec := ihQ v2 tl2 rest (by
          have := jsize_pos v
          simp only [jsizeArr] at hsz
          omega) htail
        simp only [parseArrItems, hv]
        have hsep : renderArrSep (JsonArr.cons v2 tl2) ++ (']' :: rest) =
            ',' :: (' ' :: (renderJson v2 ++ (renderArrSep tl2 ++ (']' :: rest)))) := by
          show (',' :: ' ' :: (renderJson v2 ++ renderArrSep tl2)) ++ (']' :: rest) = _
          simp
        rw [hsep, skipWs_cons_of_not_ws (by decide)]
        simp +decide [parseArrItems_ws, hrec]
    · intro k v tl rest hsz htail
      have htail2 : goodTail (renderObjSep tl ++ (cbC :: rest)) := by
        cases tl with
        | nil => exact Or.inr (Or.inr rfl)
        | cons k2 v2 tl2 => exact Or.inl rfl
      have hkey := parseStringBody_escape k (':' :: (' ' ::
          (renderJson v ++ (renderObjSep tl ++ (cbC :: rest)))))
        ((escapeString k ++ (qC :: (':' :: (' ' ::
          (renderJson v ++ (renderObjSep tl ++ (cbC :: rest))))))).length + 1) (by
        have := escapeString_length_ge k
        simp only [List.length_append, List.length_cons]
        omega)
      have hval := ihP v (renderObjSep tl ++ (cbC :: rest)) (by
        have := jsize_pos v
        omega) htail2
      simp only [parseObjItems]
      rw [skipWs_cons_of_not_ws (by decide)]
      simp +decide only []
      rw [hkey]
      simp only
      rw [skipWs_cons_of_not_ws (by decide)]
      simp only
      rw [parseValue_ws, hval]
      simp only
      cases tl with
      | nil =>
        have hsep : renderObjSep JsonObj.nil ++ (cbC :: rest) = cbC :: rest := rfl
        rw [hsep, skipWs_cons_of_not_ws (by decide)]
        simp +decide
      | cons k2 v2 tl2 =>
        have hrec := ihR k2 v2 tl2 rest (by
          have := jsize_pos v
          simp only [jsizeObj] at hsz
          omega) htail
        have hsep : renderObjSep (JsonObj.cons k2 v2 tl2) ++ (cbC :: rest) =
            ',' :: (' ' :: (qC :: (escapeString k2 ++ (qC :: (':' :: (' ' ::
              (renderJson v2 ++ (renderObjSep tl2 ++ (cbC :: rest))))))))) := by
          show (',' :: ' ' :: (qC :: (escapeString k2 ++ [qC]) ++ (':' :: ' ' ::
            renderJson v2) ++ renderObjSep tl2)) ++ (cbC :: rest) = _
          simp
        rw [hsep, skipWs_cons_of_not_ws (by decide)]
        simp +decide [parseObjItems_ws, hrec]

mutual
theorem jsize_le_render (v : Json) : jsize v ≤ (renderJson v).length := by
  cases v with
  | null => simp [jsize, renderJson]
  | bool b => cases b <;> simp [jsize, renderJson]
  | num n =>
    obtain ⟨c, cs, hsplit, -⟩ := renderInt_head n
    show jsize (Json.num n) ≤ (renderInt n).length
    rw [hsplit]
    simp [jsize]
  | str s =>
    show 1 ≤ (qC :: (escapeString s ++ [qC])).length
    simp
  | arr items =>
    cases items with
    | nil => simp [jsize, jsizeArr, renderJson]
    | cons v tl =>
      have h1 := jsize_le_render v
      have h2 := jsizeArr_le_render tl
      show jsizeArr (JsonArr.cons v tl) + 1 ≤
        ('[' :: (renderJson v ++ renderArrSep tl ++ [']'])).length
      simp only [jsizeArr, List.length_cons, List.length_append]
      omega
  | obj fields =>
    cases fields with
    | nil => simp [jsize, jsizeObj, renderJson]
    | cons k v tl =>
      have h1 := jsize_le_render v
      have h2 := jsizeObj_le_render tl
      show jsizeObj (JsonObj.cons k v tl) + 1 ≤
        (obC :: (qC :: (escapeString k ++ [qC]) ++ (':' :: ' ' :: renderJson v) ++
          renderObjSep tl ++ [cbC])).length
      simp only [jsizeObj, List.length_cons, List.length_append]
      omega
theorem jsizeArr_le_render (tl : JsonArr) : jsizeArr tl ≤ (renderArrSep tl).length := by
  cases tl with
  | nil => simp [jsizeArr, renderArrSep]
  | cons v tl =>
    have h1 := jsize_le_render v
    have h2 := jsizeArr_le_render tl
    show jsize v + jsizeArr tl + 1 ≤
      (',' :: ' ' :: (renderJson v ++ renderArrSep tl)).length
    simp only [List.length_cons, List.length_append]
    omega
theorem jsizeObj_le_render (tl : JsonObj) : jsizeObj tl ≤ (renderObjSep tl).length := by
  cases tl with
  | nil => simp [jsizeObj, renderObjSep]
  | cons k v tl =>
    have h1 := jsize_le_render v
    have h2 := jsizeObj_le_render tl
    show jsize v + jsizeObj tl + 1 ≤
      (',' :: ' ' :: (qC :: (escapeString k ++ [qC]) ++ (':' :: ' ' :: renderJson v) ++
        renderObjSep tl)).length
    simp only [List.length_cons, List.length_append]
    omega
end

/-- `json.loads(json.dumps(v))` recovers `v`. -/
theorem jsonLoads_render (v : Json) : jsonLoads (renderJson v) = some v := by
  have hlen : jsize v ≤ (renderJson v).length + 1 :=
    le_trans (jsize_le_render v) (by omega)
  have h := (parse_render_all ((renderJson v).length + 1)).1 v [] hlen trivial
  rw [List.append_nil] at h
  rw [jsonLoads, h]
  rfl

/-! ### UTF-8 (`.encode('utf-8')` / `.decode('utf-8')`) -/

/-- Standard UTF-8 encoding of one scalar value. -/
def utf8EncodeChar (c : Char) : List Nat :=
  let n := c.toNat
  if n < 128 then [n]
  else if n < 2048 then [192 + n / 64, 128 + n % 64]
  else if n < 65536 then [224 + n / 4096, 128 + n / 64 % 64, 128 + n % 64]
  else [240 + n / 262144, 128 + n / 4096 % 64, 128 + n / 64 % 64, 128 + n % 64]

def utf8Encode : List Char → List Nat
  | [] => []
  | c :: rest => utf8EncodeChar c ++ utf8Encode rest

/-- Strict UTF-8 decoding (CPython `codecs` strict mode): rejects stray
or missing continuation bytes, overlong forms, surrogates and values
beyond U+10FFFF. -/
def utf8DecodeAux : Nat → List Nat → Option (List Char)
  | 0, _ => none
  | _ + 1, [] => some []
  | fuel + 1, b :: rest =>
    if b < 128 then (utf8DecodeAux fuel rest).map (fun s => Char.ofNat b :: s)
    else if b < 194 then none
    else if b < 224 then
      match rest with
      | b2 :: rest2 =>
        if 128 ≤ b2 ∧ b2 < 192 then
          (utf8DecodeAux fuel rest2).map
            (fun s => Char.ofNat ((b - 192) * 64 + (b2 - 128)) :: s)
        else none
      | [] => none
    else if b < 240 then
      match rest with
      | b2 :: b3 :: rest3 =>
        if 128 ≤ b2 ∧ b2 < 192 ∧ 128 ≤ b3 ∧ b3 < 192 then
          let n := (b - 224) * 4096 + (b2 - 128) * 64 + (b3 - 128)
          if n < 2048 then none
          else if 55296 ≤ n ∧ n < 57344 then none
          else (utf8DecodeAux fuel rest3).map (fun s => Char.ofNat n :: s)
        else none
      | _ => none
    else if b < 245 then
      match rest with
      | b2 :: b3 :: b4 :: rest4 =>
        if 128 ≤ b2 ∧ b2 < 192 ∧ 128 ≤ b3 ∧ b3 < 192 ∧ 128 ≤ b4 ∧ b4 < 192 then
          let n := (b - 240) * 262144 + (b2 - 128) * 4096 + (b3 - 128) * 64 +
            (b4 - 128)
          if n < 65536 then none
          else if 1114111 < n then none
          else (utf8DecodeAux fuel rest4).map (fun s => Char.ofNat n :: s)
        else none
      | _ => none
    else none

def utf8Decode (bs : List Nat) : Option (List Char) :=
  utf8DecodeAux (bs.length + 1) bs

theorem utf8Encode_ascii {s : List Char} (h : ∀ c ∈ s, c.toNat < 128) :
    utf8Encode s = s.map Char.toNat := by
  induction s with
  | nil => rfl
  | cons c rest ih =>
    show utf8EncodeChar c ++ utf8Encode rest = c.toNat :: rest.map Char.toNat
    simp only [utf8EncodeChar]
    rw [if_pos (h c (by simp))]
    rw [ih (fun x hx => h x (by simp [hx]))]
    rfl

theorem utf8DecodeAux_ascii :
    ∀ (bs : List Nat) (fuel : Nat), bs.length < fuel → (∀ b ∈ bs, b < 128) →
      utf8DecodeAux fuel bs = some (bs.map Char.ofNat) := by
  intro bs
  induction bs with
  | nil =>
    intro fuel hf _
    obtain ⟨f, rfl⟩ : ∃ f, fuel = f + 1 := ⟨fuel - 1, by omega⟩
    rfl
  | cons b rest ih =>
    intro fuel hf hall
    obtain ⟨f, rfl⟩ : ∃ f, fuel = f + 1 := ⟨fuel - 1, by omega⟩
    show utf8DecodeAux (f + 1) (b :: rest) = _
    simp only [utf8DecodeAux]
    rw [if_pos (hall b (by simp))]
    rw [ih f (by simp at hf; omega) (fun x hx => hall x (by simp [hx]))]
    rfl

theorem utf8_roundtrip_ascii {s : List Char} (h : ∀ c ∈ s, c.toNat < 128) :
    utf8Decode (utf8Encode s) = some s := by
  rw [utf8Encode_ascii h, utf8Decode]
  rw [utf8DecodeAux_ascii (s.map Char.toNat) _ (by simp)
    (by intro b hb; simp at hb; obtain ⟨c, hc, rfl⟩ := hb; exact h c hc)]
  congr 1
  rw [List.map_map]
  calc s.map (Char.ofNat ∘ Char.toNat) = s.map id := by
        apply List.map_congr_left
        intro c _
        exact Char.ofNat_toNat c
    _ = s := List.map_id s

theorem hexDigit_ascii {d : Nat} (h : d < 16) : (hexDigit d).toNat < 128 := by
  rw [hexDigit_toNat h]
  split <;> omega

theorem hex4_ascii (n : Nat) : ∀ x ∈ hex4 n, x.toNat < 128 := by
  intro x hx
  simp only [hex4, List.mem_cons, List.mem_singleton, List.not_mem_nil, or_false] at hx
  rcases hx with rfl | rfl | rfl | rfl <;> exact hexDigit_ascii (by omega)

theorem escapeChar_ascii (c : Char) : ∀ x ∈ escapeChar c, x.toNat < 128 := by
  intro x hx
  rw [escapeChar] at hx
  split at hx
  · rcases (by simpa using hx : x = bsC ∨ x = qC) with rfl | rfl <;> decide
  · split at hx
    · rcases (by simpa using hx : x = bsC ∨ x = bsC) with rfl | rfl <;> decide
    · split at hx
      · rcases (by simpa using hx : x = bsC ∨ x = 'b') with rfl | rfl <;> decide
      · split at hx
        · rcases (by simpa using hx : x = bsC ∨ x = 't') with rfl | rfl <;> decide
        · split at hx
          · rcases (by simpa using hx : x = bsC ∨ x = 'n') with rfl | rfl <;> decide
          · split at hx
            · rcases (by simpa using hx : x = bsC ∨ x = 'f') with rfl | rfl <;>
                decide
            · split at hx
              · rcases (by simpa using hx : x = bsC ∨ x = 'r') with rfl | rfl <;>
                  decide
              · split at hx
                · rcases (by simpa using hx :
                      x = bsC ∨ x = 'u' ∨ x ∈ hex4 c.toNat) with rfl | rfl | hm
                  · decide
                  · decide
                  · exact hex4_ascii _ x hm
                · split at hx
                  · rename_i h9
                    rcases (by simpa using hx : x = c) with rfl
                    omega
                  · split at hx
                    · rcases (by simpa using hx :
                          x = bsC ∨ x = 'u' ∨ x ∈ hex4 c.toNat) with rfl | rfl | hm
                      · decide
                      · decide
                      · exact hex4_ascii _ x hm
                    · rcases (by simpa using hx :
                          x = bsC ∨ x = 'u' ∨
                            x ∈ hex4 (55296 + (c.toNat - 65536) / 1024) ∨
                          x = bsC ∨ x = 'u' ∨
                            x ∈ hex4 (56320 + (c.toNat - 65536) % 1024)) with
                        rfl | rfl | hm | rfl | rfl | hm
                      · decide
                      · decide
                      · exact hex4_ascii _ x hm
                      · decide
                      · decide
                      · exact hex4_ascii _ x hm

theorem escapeString_ascii (s : List Char) : ∀ x ∈ escapeString s, x.toNat < 128 := by
  induction s with
  | nil => intro x hx; simp [escapeString] at hx
  | cons c rest ih =>
    intro x hx
    rw [escapeString] at hx
    rcases List.mem_append.mp hx with hm | hm
    · exact escapeChar_ascii c x hm
    · exact ih x hm

theorem renderInt_ascii (i : Int) : ∀ x ∈ renderInt i, x.toNat < 128 := by
  intro x hx
  rw [renderInt] at hx
  have hdig : ∀ n : Nat, x ∈ renderNat n → x.toNat < 128 := by
    intro n hn
    have := renderNat_digits n x hn
    simp [isDigit] at this
    omega
  split at hx
  · rcases List.mem_cons.mp hx with rfl | hm
    · decide
    · exact hdig _ hm
  · exact hdig _ hx

mutual
theorem renderJson_ascii (v : Json) : ∀ x ∈ renderJson v, x.toNat < 128 := by
  intro x hx
  cases v with
  | null =>
    have hx2 : x ∈ (['n', 'u', 'l', 'l'] : List Char) := hx
    rcases (by simpa using hx2 : x = 'n' ∨ x = 'u' ∨ x = 'l' ∨ x = 'l') with
      rfl | rfl | rfl | rfl <;> decide
  | bool b =>
    cases b with
    | true =>
      have hx2 : x ∈ (['t', 'r', 'u', 'e'] : List Char) := hx
      rcases (by simpa using hx2 : x = 't' ∨ x = 'r' ∨ x = 'u' ∨ x = 'e') with
        rfl | rfl | rfl | rfl <;> decide
    | false =>
      have hx2 : x ∈ (['f', 'a', 'l', 's', 'e'] : List Char) := hx
      rcases (by simpa using hx2 : x = 'f' ∨ x = 'a' ∨ x = 'l' ∨ x = 's' ∨ x = 'e')
        with rfl | rfl | rfl | rfl | rfl <;> decide
  | num n => exact renderInt_ascii n x hx
  | str s =>
    have hx2 : x ∈ qC :: (escapeString s ++ [qC]) := hx
    rcases (by simpa using hx2 : x = qC ∨ (x ∈ escapeString s ∨ x = qC)) with
      rfl | hm | rfl
    · decide
    · exact escapeString_ascii s x hm
    · decide
  | arr items =>
    cases items with
    | nil =>
      have hx2 : x ∈ (['[', ']'] : List Char) := hx
      rcases (by simpa using hx2 : x = '[' ∨ x = ']') with rfl | rfl <;> decide
    | cons v tl =>
      have hx2 : x ∈ '[' :: (renderJson v ++ renderArrSep tl ++ [']']) := hx
      rcases (by simpa using hx2 :
          x = '[' ∨ x ∈ renderJson v ∨ x ∈ renderArrSep tl ∨ x = ']') with
        rfl | hm | hm | rfl
      · decide
      · exact renderJson_ascii v x hm
      · exact renderArrSep_ascii tl x hm
      · decide
  | obj fields =>
    cases fields with
    | nil =>
      have hx2 : x ∈ ([obC, cbC] : List Char) := hx
      rcases (by simpa using hx2 : x = obC ∨ x = cbC) with rfl | rfl <;> decide
    | cons k v tl =>
      have hx2 : x ∈ obC :: (qC :: (escapeString k ++ [qC]) ++
          (':' :: ' ' :: renderJson v) ++ renderObjSep tl ++ [cbC]) := hx
      rcases (by simpa using hx2 :
          x = obC ∨ x = qC ∨ x ∈ escapeString k ∨ x = qC ∨ x = ':' ∨ x = ' ' ∨
            x ∈ renderJson v ∨ x ∈ renderObjSep tl ∨ x = cbC) with
        rfl | rfl | hm | rfl | rfl | rfl | hm | hm | rfl
      · decide
      · decide
      · exact escapeString_ascii k x hm
      · decide
      · decide
      · decide
      · exact renderJson_ascii v x hm
      · exact renderObjSep_ascii tl x hm
      · decide
theorem renderArrSep_ascii (tl : JsonArr) : ∀ x ∈ renderArrSep tl, x.toNat < 128 := by
  intro x hx
  cases tl with
  | nil => exact absurd (hx : x ∈ ([] : List Char)) (List.not_mem_nil x)
  | cons v tl =>
    have hx2 : x ∈ ',' :: ' ' :: (renderJson v ++ renderArrSep tl) := hx
    rcases (by simpa using hx2 :
        x = ',' ∨ x = ' ' ∨ x ∈ renderJson v ∨ x ∈ renderArrSep tl) with
      rfl | rfl | hm | hm
    · decide
    · decide
    · exact renderJson_ascii v x hm
    · exact renderArrSep_ascii tl x hm
theorem renderObjSep_ascii (tl : JsonObj) : ∀ x ∈ renderObjSep tl, x.toNat < 128 := by
  intro x hx
  cases tl with
  | nil => exact absurd (hx : x ∈ ([] : List Char)) (List.not_mem_nil x)
  | cons k v tl =>
    have hx2 : x ∈ ',' :: ' ' :: (qC :: (escapeString k ++ [qC]) ++
        (':' :: ' ' :: renderJson v) ++ renderObjSep tl) := hx
    rcases (by simpa using hx2 :
        x = ',' ∨ x = ' ' ∨ x = qC ∨ x ∈ escapeString k ∨ x = qC ∨ x = ':' ∨
          x = ' ' ∨ x ∈ renderJson v ∨ x ∈ renderObjSep tl) with
      rfl | rfl | rfl | hm | rfl | rfl | rfl | hm | hm
    · decide
    · decide
    · decide
    · exact escapeString_ascii k x hm
    · decide
    · decide
    · decide
    · exact renderJson_ascii v x hm
    · exact renderObjSep_ascii tl x hm
end

/-! ### Wire framing: `send_message` and `recv_message` in
`src/protocol/messages.py`. Byte streams are `List Nat`. -/

/-- The four big-endian bytes produced by `struct.pack` for a 32-bit value. -/
def be32 (n : Nat) : List Nat :=
  [n / 16777216 % 256, n / 65536 % 256, n / 256 % 256, n % 256]

/-- The value a 4-byte big-endian prefix decodes to (`struct.unpack`). -/
def be32Val (b0 b1 b2 b3 : Nat) : Nat :=
  b0 * 16777216 + b1 * 65536 + b2 * 256 + b3

/-- `send_message`: serialize with `json.dumps`, UTF-8 encode, prepend the
4-byte big-endian length. `struct.pack` raises `struct.error` when the
payload length does not fit in 32 bits; that exception is not caught by
the function (its handler covers only socket errors), modelled as `none`.
There is no upper bound below 2^32 on the sending side. -/
def sendMessage (m : Json) : Option (List Nat) :=
  let payload := utf8Encode (renderJson m)
  if payload.length < 4294967296 then some (be32 payload.length ++ payload)
  else none

/-- The reasons `recv_message` raises `ProtocolError`. -/
inductive ProtoReason
  | oversize
  | shortPayload
  | badJson
deriving DecidableEq

/-- Observable outcome of `recv_message` on a byte stream: a decoded
message, `None` on clean close, a raised `ProtocolError`, or an exception
that escapes the function uncaught: `struct.error` when fewer than 4
length bytes arrive (its handlers cover only `json.JSONDecodeError` and
socket errors), or `UnicodeDecodeError` when the payload is not UTF-8. -/
inductive RecvOutcome
  | msg (m : Json)
  | closed
  | protoError (r : ProtoReason)
  | structError
  | unicodeError
deriving DecidableEq

/-- `recv_message`: `_recv_exact(sock, 4)` returns whatever prefix of the
stream is available; an empty result returns `None`, a 1 to 3 byte result
makes `struct.unpack` raise `struct.error`. The decoded length is checked
against the 100 MiB bound, the payload is read with `_recv_exact` (which
returns short data on close), decoded as UTF-8 and parsed as JSON. -/
def recvMessage (s : List Nat) : RecvOutcome :=
  match s with
  | [] => RecvOutcome.closed
  | [_] => RecvOutcome.structError
  | [_, _] => RecvOutcome.structError
  | [_, _, _] => RecvOutcome.structError
  | b0 :: b1 :: b2 :: b3 :: rest =>
    let len := be32Val b0 b1 b2 b3
    if 104857600 < len then RecvOutcome.protoError ProtoReason.oversize
    else
      let payload := rest.take len
      if payload.length ≠ len then RecvOutcome.protoError ProtoReason.shortPayload
      else
        match utf8Decode payload with
        | none => RecvOutcome.unicodeError
        | some chars =>
          match jsonLoads chars with
          | none => RecvOutcome.protoError ProtoReason.badJson
          | some m => RecvOutcome.msg m

theorem recvMessage_cons (b0 b1 b2 b3 : Nat) (rest : List Nat) :
    recvMessage (b0 :: b1 :: b2 :: b3 :: rest) =
      (if 104857600 < be32Val b0 b1 b2 b3 then
        RecvOutcome.protoError ProtoReason.oversize
      else if (rest.take (be32Val b0 b1 b2 b3)).length ≠ be32Val b0 b1 b2 b3 then
        RecvOutcome.protoError ProtoReason.shortPayload
      else
        match utf8Decode (rest.take (be32Val b0 b1 b2 b3)) with
        | none => RecvOutcome.unicodeError
        | some chars =>
          match jsonLoads chars with
          | none => RecvOutcome.protoError ProtoReason.badJson
          | some m => RecvOutcome.msg m) := rfl

theorem be32_val (n : Nat) (h : n < 4294967296) :
    be32Val (n / 16777216 % 256) (n / 65536 % 256) (n / 256 % 256) (n % 256) = n := by
  rw [be32Val]
  omega

/-- Round trip of the wire codec for any message whose serialized payload
respects the receiving bound. -/
theorem sendRecv_roundtrip (m : Json)
    (hlen : (utf8Encode (renderJson m)).length ≤ 104857600) :
    ∃ bytes, sendMessage m = some bytes ∧ recvMessage bytes = RecvOutcome.msg m := by
  have hsmall : (utf8Encode (renderJson m)).length < 4294967296 := by omega
  refine ⟨be32 (utf8Encode (renderJson m)).length ++ utf8Encode (renderJson m),
    ?_, ?_⟩
  · show (if (utf8Encode (renderJson m)).length < 4294967296 then
      some (be32 (utf8Encode (renderJson m)).length ++ utf8Encode (renderJson m))
      else none) = _
    rw [if_pos hsmall]
  · rw [be32]
    show recvMessage ((utf8Encode (renderJson m)).length / 16777216 % 256 ::
      (utf8Encode (renderJson m)).length / 65536 % 256 ::
      (utf8Encode (renderJson m)).length / 256 % 256 ::
      (utf8Encode (renderJson m)).length % 256 :: utf8Encode (renderJson m)) = _
    rw [recvMessage_cons, be32_val _ hsmall]
    rw [if_neg (by omega)]
    rw [List.take_length]
    rw [if_neg (by simp)]
    simp only [utf8_roundtrip_ascii (renderJson_ascii m), jsonLoads_render]

theorem escapeChar_a : escapeChar 'a' = ['a'] := by decide

theorem escapeString_replicate (n : Nat) :
    escapeString (List.replicate n 'a') = List.replicate n 'a' := by
  induction n with
  | zero => rfl
  | succ k ih =>
    rw [List.replicate_succ]
    show escapeChar 'a' ++ escapeString (List.replicate k 'a') = _
    rw [escapeChar_a, ih]
    rfl

theorem oversize_payload_len :
    (utf8Encode (renderJson (Json.str (List.replicate 104857599 'a')))).length =
      104857601 := by
  have hren : renderJson (Json.str (List.replicate 104857599 'a')) =
      qC :: (List.replicate 104857599 'a' ++ [qC]) := by
    show qC :: (escapeString (List.replicate 104857599 'a') ++ [qC]) = _
    rw [escapeString_replicate]
  rw [hren]
  have hascii : ∀ c ∈ qC :: (List.replicate 104857599 'a' ++ [qC]),
      c.toNat < 128 := by
    intro c hc
    rcases List.mem_cons.mp hc with rfl | hc2
    · decide
    · rcases List.mem_append.mp hc2 with hc3 | hc3
      · rw [(List.mem_replicate.mp hc3).2]; decide
      · rw [List.mem_singleton.mp hc3]; decide
  rw [utf8Encode_ascii hascii]
  rw [List.length_map, List.length_cons, List.length_append,
    List.length_replicate]
  rfl

/-! ## Client handler (`server.py`, `ClientHandler.handle`)

The handler is modelled as a function from an environment — the decoded
first client message and the success or failure of each later stage — to
the observable trace: the JSON messages written to the client stream, the
`session:{id}:<key>` values written to Redis (recorded as
`(key suffix, value)` pairs), whether raw video bytes were streamed back,
and whether the `finally` clause closed the connection.  Redis values
that the model does not compute (timestamps, video properties) are taken
from the environment. -/

def jStr (s : String) : Json := Json.str s.toList

/-- Python truthiness of a decoded JSON value (`if not handshake`). -/
def pyTruthy : Json → Bool
  | .null => false
  | .bool b => b
  | .num n => decide (n ≠ 0)
  | .str s => decide (s ≠ [])
  | .arr .nil => false
  | .arr (.cons _ _) => true
  | .obj .nil => false
  | .obj (.cons _ _ _) => true

/-- Whether the decoded value is a `dict` (only dicts have `.get`). -/
def isDict : Json → Bool
  | .obj _ => true
  | _ => false

/-- `dict.get(key)` on a decoded JSON object.  `json.loads` keeps the last
occurrence of a duplicated key, so the last binding wins. -/
def jGet : JsonObj → List Char → Option Json
  | .nil, _ => none
  | .cons k v tl, key =>
    match jGet tl key with
    | some v2 => some v2
    | none => if k = key then some v else none

def dictGet (j : Json) (key : List Char) : Option Json :=
  match j with
  | .obj o => jGet o key
  | _ => none

/-- `messages.make_handshake_ack` (field order as in the source). -/
def makeHandshakeAck (accepted : Bool) (sessionId : List Char) : Json :=
  Json.obj (.cons "type".toList (jStr "handshake_ack")
    (.cons "accepted".toList (Json.bool accepted)
      (.cons "session_id".toList (Json.str sessionId)
        (.cons "preview_url".toList Json.null .nil))))

/-- `messages.make_error` with `recoverable=False`, as `_send_error`
builds it. -/
def makeError (code msg : List Char) : Json :=
  Json.obj (.cons "type".toList (jStr "error")
    (.cons "code".toList (Json.str code)
      (.cons "message".toList (Json.str msg)
        (.cons "recoverable".toList (Json.bool false) .nil))))

/-- `messages.make_progress`. -/
def makeProgress (framesProcessed framesTotal fps etaSeconds : Json) : Json :=
  Json.obj (.cons "type".toList (jStr "progress")
    (.cons "frames_processed".toList framesProcessed
      (.cons "frames_total".toList framesTotal
        (.cons "fps".toList fps
          (.cons "eta_seconds".toList etaSeconds .nil)))))

/-- `messages.make_result`. -/
def makeResult (ok : Bool) (outputPath : List Char) (sizeBytes : Int)
    (metrics : Json) : Json :=
  Json.obj (.cons "type".toList (jStr "result")
    (.cons "ok".toList (Json.bool ok)
      (.cons "output_path".toList (Json.str outputPath)
        (.cons "size_bytes".toList (Json.num sizeBytes)
          (.cons "metrics".toList metrics .nil)))))

/-- Environment of one `handle()` run: the decoded first message (`none`
when `_recv_message` returned `None`), whether the Redis client is up,
whether video reception plus `dispatch_tasks` succeed, whether the
result-processing stage (`get_celery_results`, `process_results`, reading
the output file, sending it) succeeds, and the data-dependent values the
model does not compute itself. -/
structure HandleEnv where
  firstMsg : Option Json
  redisUp : Bool
  dispatchOk : Bool
  resultsOk : Bool
  sessionId : List Char
  errText : List Char
  totalFramesVal : String
  fpsVal : String
  resolutionVal : String
  processingTypeVal : String
  videoNameVal : String
  startTimeVal : String
  endTimeVal : String
  outputBase : List Char
  videoSize : Int
  metricsJson : Json

/-- Observable trace of one `handle()` run. -/
structure HandleTrace where
  sent : List Json
  redisWrites : List (String × String)
  videoSent : Bool
  closed : Bool

/-- The seven metadata writes of `handle` step 2 (lines 336-349), in
source order, with `status = 'processing'`. -/
def metaWrites (env : HandleEnv) : List (String × String) :=
  [("total_frames", env.totalFramesVal), ("fps", env.fpsVal),
   ("resolution", env.resolutionVal), ("status", "processing"),
   ("processing_type", env.processingTypeVal),
   ("video_name", env.videoNameVal), ("start_time", env.startTimeVal)]

/-- The nested `progress_callback` defined inside `handle` (lines
357-376): one invocation would send a `progress` message and write the
keys `processed_frames`, `current_fps` and `eta_seconds`.
`process_results` receives this callback as its `progress_callback`
parameter but forwards only the arguments up to `codec` to
`_process_results_sync`, which has no callback parameter; the callback is
therefore never invoked. -/
def progressCallbackEffect (fp ft fps eta : Json) (redisUp : Bool)
    (fpV fpsV etaV : String) : Json × List (String × String) :=
  (makeProgress fp ft fps eta,
   if redisUp then
     [("processed_frames", fpV), ("current_fps", fpsV), ("eta_seconds", etaV)]
   else [])

/-- `ClientHandler.handle` (lines 305-435).  Stages in source order:
receive the first message; on a falsy value or a dict whose `type` is not
`"handshake"`, send `INVALID_HANDSHAKE` and return (a truthy non-dict
instead raises `AttributeError` at `handshake.get`, caught by the generic
`except` which sends `PROCESSING_ERROR`); otherwise ack, receive the
video and dispatch; on success write the Redis metadata (status
`processing`), run result processing, on success write status
`completed` plus `end_time` and send the result message and the video
bytes.  Any exception after the handshake reaches the `except` clause,
which only sends `PROCESSING_ERROR`; the `finally` clause always closes
the connection.  No stage writes `status = failed`. -/
def handleModel (env : HandleEnv) : HandleTrace :=
  match env.firstMsg with
  | none =>
    { sent := [makeError "INVALID_HANDSHAKE".toList "Se esperaba handshake".toList],
      redisWrites := [], videoSent := false, closed := true }
  | some h =>
    if pyTruthy h = false then
      { sent := [makeError "INVALID_HANDSHAKE".toList "Se esperaba handshake".toList],
        redisWrites := [], videoSent := false, closed := true }
    else if isDict h = false then
      { sent := [makeError "PROCESSING_ERROR".toList env.errText],
        redisWrites := [], videoSent := false, closed := true }
    else if dictGet h "type".toList ≠ some (jStr "handshake") then
      { sent := [makeError "INVALID_HANDSHAKE".toList "Se esperaba handshake".toList],
        redisWrites := [], videoSent := false, closed := true }
    else if env.dispatchOk = false then
      { sent := [makeHandshakeAck true env.sessionId,
                 makeError "PROCESSING_ERROR".toList env.errText],
        redisWrites := [], videoSent := false, closed := true }
    else if env.resultsOk = false then
      { sent := [makeHandshakeAck true env.sessionId,
                 makeError "PROCESSING_ERROR".toList env.errText],
        redisWrites := if env.redisUp then metaWrites env else [],
        videoSent := false, closed := true }
    else
      { sent := [makeHandshakeAck true env.sessionId,
                 makeResult true env.outputBase env.videoSize env.metricsJson],
        redisWrites := (if env.redisUp then metaWrites env else []) ++
          (if env.redisUp then
            [("status", "completed"), ("end_time", env.endTimeVal)] else []),
        videoSent := true, closed := true }

/-- Discriminator for `progress` messages. -/
def isProgressMsg (j : Json) : Bool :=
  dictGet j "type".toList = some (jStr "progress")

theorem isProgressMsg_makeError (c m : List Char) :
    isProgressMsg (makeError c m) = false := rfl

theorem isProgressMsg_ack (b : Bool) (sid : List Char) :
    isProgressMsg (makeHandshakeAck b sid) = false := rfl

theorem isProgressMsg_result (ok : Bool) (op : List Char) (sb : Int) (mj : Json) :
    isProgressMsg (makeResult ok op sb mj) = false := rfl

theorem isProgressMsg_progress (a b c d : Json) :
    isProgressMsg (makeProgress a b c d) = true := rfl

/-- The handshake check of lines 315-318 succeeds. -/
def handshakeAccepted (env : HandleEnv) : Bool :=
  match env.firstMsg with
  | none => false
  | some h =>
    pyTruthy h && isDict h &&
      decide (dictGet h "type".toList = some (jStr "handshake"))

theorem handle_no_progress_aux (env : HandleEnv) :
    (handleModel env).sent.filter isProgressMsg = [] := by
  obtain ⟨fm, ru, dok, rok, sid, et, v1, v2, v3, v4, v5, v6, v7, ob, vs, mj⟩ := env
  cases fm with
  | none => rfl
  | some h =>
    simp only [handleModel]
    split
    · rfl
    · split
      · rfl
      · split
        · rfl
        · split
          · rfl
          · split
            · rfl
            · rfl

theorem handle_no_failed_status_aux (env : HandleEnv) :
    (handleModel env).redisWrites.filter
      (fun p => p.1 == "status" && p.2 == "failed") = [] := by
  obtain ⟨fm, ru, dok, rok, sid, et, v1, v2, v3, v4, v5, v6, v7, ob, vs, mj⟩ := env
  cases fm with
  | none => rfl
  | some h =>
    simp only [handleModel]
    split
    · rfl
    · split
      · rfl
      · split
        · rfl
        · split
          · rfl
          · split
            · cases ru <;> rfl
            · cases ru <;> rfl

theorem handle_no_progress_keys_aux (env : HandleEnv) :
    (handleModel env).redisWrites.filter
      (fun p => p.1 == "processed_frames" || p.1 == "current_fps" ||
        p.1 == "eta_seconds") = [] := by
  obtain ⟨fm, ru, dok, rok, sid, et, v1, v2, v3, v4, v5, v6, v7, ob, vs, mj⟩ := env
  cases fm with
  | none => rfl
  | some h =>
    simp only [handleModel]
    split
    · rfl
    · split
      · rfl
      · split
        · rfl
        · split
          · rfl
          · split
            · cases ru <;> rfl
            · cases ru <;> rfl

/-! ## Concrete instances used by witnesses -/

/-- A concrete pixel model over `Nat` payloads. -/
def natPixel : PixelModel Nat :=
  { resize := fun _ _ => 0, zero := fun _ => 0 }

/-- A baseline handler environment: no first message, everything else
inert. -/
def envBase : HandleEnv :=
  { firstMsg := none, redisUp := false, dispatchOk := false, resultsOk := false,
    sessionId := [], errText := [], totalFramesVal := "", fpsVal := "",
    resolutionVal := "", processingTypeVal := "", videoNameVal := "",
    startTimeVal := "", endTimeVal := "", outputBase := [], videoSize := 0,
    metricsJson := Json.null }

/-- An environment whose first message is the truthy non-dict `5`. -/
def envNum : HandleEnv := { envBase with firstMsg := some (Json.num 5) }

/-- An environment with a valid handshake, Redis up, a successful dispatch
and a failing result stage. -/
def failEnv : HandleEnv :=
  { envBase with
    firstMsg := some (Json.obj (.cons "type".toList (jStr "handshake") .nil))
    redisUp := true
    dispatchOk := true
    resultsOk := false
    totalFramesVal := "150"
    fpsVal := "30.00"
    resolutionVal := "640x480"
    processingTypeVal := "blur"
    videoNameVal := "input.mp4"
    startTimeVal := "0" }

/-- A concrete open writer over `Nat` payloads with frame size `(2, 2)`. -/
def openWriterW : VideoWriterState Nat :=
  { fourccStr := "mp4v", fps := 30, frameSize := some (2, 2), isOpen := true,
    frameCount := 0, backendOpens := true, written := [] }

/-- Fold preservation of the metrics balance invariant. -/
theorem balanced_foldl (ops : List MetricsOp) :
    ∀ m : MetricsCollector, m.balanced →
      (ops.foldl MetricsCollector.step m).balanced := by
  induction ops with
  | nil => intro m h; exact h
  | cons op tl ih => intro m h; exact ih _ (balanced_step h op)

/-! ## Claim theorems -/

/-- C1: for a session with declared total `N`, after any sequence of
`add_frame(i, frame)` calls with indices below `N` followed by
`flush_remaining(N)`, the underlying writer receives exactly one frame per
index `0..N-1` in ascending order — position `i` of the encoder's input
holds the supplied frame for index `i` (resized when needed), and a zero
frame of the declared dimensions when index `i` was never supplied. -/
theorem buffer_flush_covers_all_indices {C : Type} (pm : PixelModel C)
    (fs : Nat × Nat) (codec : String) (fps : ℚ) (N : Nat)
    (ops : List (Nat × Frame C)) (hidx : ∀ p ∈ ops, p.1 < N) :
    (flushRemaining pm (runOps pm (initBuffer (initWriter codec fps (some fs) true)) ops)
        N).1.writer.written.length = N ∧
    (∀ i, i < N → i ∉ ops.map Prod.fst →
      (flushRemaining pm (runOps pm (initBuffer (initWriter codec fps (some fs) true)) ops)
          N).1.writer.written[i]? = some (zeroFrame pm fs)) ∧
    (∀ i, i < N → i ∈ ops.map Prod.fst →
      ∃ f, (i, f) ∈ ops ∧
        (flushRemaining pm (runOps pm (initBuffer (initWriter codec fps (some fs) true)) ops)
            N).1.writer.written[i]? = some (fitFrame pm fs f)) :=
  bufferRunFlush_spec pm fs codec fps N ops hidx

theorem buffer_flush_covers_all_indices_witness :
    (∀ p ∈ ([(1, (⟨2, 2, 7⟩ : Frame Nat))] : List (Nat × Frame Nat)), p.1 < 2) ∧
    (flushRemaining natPixel
        (runOps natPixel (initBuffer (initWriter "mp4v" 30 (some (2, 2)) true))
          [(1, ⟨2, 2, 7⟩)]) 2).1.writer.written.length = 2 :=
  ⟨by decide,
   (buffer_flush_covers_all_indices natPixel (2, 2) "mp4v" 30 2
     [(1, ⟨2, 2, 7⟩)] (by decide)).1⟩

/-- C2: contrary to the spec, no run of `ClientHandler.handle` ever sends
a `progress` message or writes the progress keys: `process_results`
accepts the `progress_callback` argument but does not forward it to
`_process_results_sync`, which cannot and does not invoke it. -/
theorem handle_never_sends_progress (env : HandleEnv) :
    (handleModel env).sent.filter isProgressMsg = [] ∧
    (handleModel env).redisWrites.filter
      (fun p => p.1 == "processed_frames" || p.1 == "current_fps" ||
        p.1 == "eta_seconds") = [] :=
  ⟨handle_no_progress_aux env, handle_no_progress_keys_aux env⟩

/-- C3: on an unrecoverable error after the handshake (modelled: dispatch
succeeded, result processing failed) the handler does send an `error`
message, but — contrary to the spec — never writes `status = failed`: the
status key keeps the value `processing` written at dispatch time. -/
theorem failure_path_no_failed_status (env : HandleEnv)
    (hh : handshakeAccepted env = true) (hd : env.dispatchOk = true)
    (hr : env.resultsOk = false) :
    (handleModel env).sent = [makeHandshakeAck true env.sessionId,
      makeError "PROCESSING_ERROR".toList env.errText] ∧
    (handleModel env).redisWrites.filter
      (fun p => p.1 == "status" && p.2 == "failed") = [] ∧
    (env.redisUp = true → ("status", "processing") ∈ (handleModel env).redisWrites) ∧
    (handleModel env).closed = true := by
  obtain ⟨fm, ru, dok, rok, sid, et, v1, v2, v3, v4, v5, v6, v7, ob, vs, mj⟩ := env
  cases fm with
  | none => exact absurd hh (by simp [handshakeAccepted])
  | some h =>
    have hd2 : dok = true := hd
    have hr2 : rok = false := hr
    subst hd2
    subst hr2
    simp only [handshakeAccepted, Bool.and_eq_true, decide_eq_true_eq] at hh
    obtain ⟨⟨ht, hdict⟩, htype⟩ := hh
    simp only [handleModel]
    rw [if_neg (by simp [ht]), if_neg (by simp [hdict]),
      if_neg (by simpa using htype), if_neg (by simp), if_pos trivial]
    refine ⟨rfl, ?_, ?_, rfl⟩
    · cases ru <;> rfl
    · intro hru
      have hru2 : ru = true := hru
      subst hru2
      simp [metaWrites]

theorem failure_path_no_failed_status_witness :
    handshakeAccepted failEnv = true ∧
    ((handleModel failEnv).sent = [makeHandshakeAck true failEnv.sessionId,
        makeError "PROCESSING_ERROR".toList failEnv.errText] ∧
      (handleModel failEnv).redisWrites.filter
        (fun p => p.1 == "status" && p.2 == "failed") = [] ∧
      (failEnv.redisUp = true →
        ("status", "processing") ∈ (handleModel failEnv).redisWrites) ∧
      (handleModel failEnv).closed = true) :=
  ⟨by decide, failure_path_no_failed_status failEnv (by decide) rfl rfl⟩

/-- C3 counterexample: a concrete failing session in which the handler
sends the `error` message while the only status value ever written to the
state store is `processing` — `failed` is never written. -/
theorem failure_path_status_counterexample :
    (handleModel failEnv).sent = [makeHandshakeAck true [],
      makeError "PROCESSING_ERROR".toList []] ∧
    (handleModel failEnv).redisWrites.filter (fun p => p.1 == "status") =
      [("status", "processing")] :=
  ⟨rfl, rfl⟩

/-- C4: when the first message is absent, falsy, or a dict whose `type` is
not `"handshake"`, the server sends `INVALID_HANDSHAKE`, closes, and
writes no session key.  But — contrary to the spec — a truthy non-dict
first message makes `handshake.get` raise `AttributeError`, so the
generic handler sends `PROCESSING_ERROR` instead of `INVALID_HANDSHAKE`
(still closing with no session key written). -/
theorem handshake_rejection_behaviour (env : HandleEnv) :
    (env.firstMsg = none →
      (handleModel env).sent =
        [makeError "INVALID_HANDSHAKE".toList "Se esperaba handshake".toList] ∧
      (handleModel env).redisWrites = [] ∧ (handleModel env).closed = true) ∧
    (∀ h, env.firstMsg = some h → pyTruthy h = false →
      (handleModel env).sent =
        [makeError "INVALID_HANDSHAKE".toList "Se esperaba handshake".toList] ∧
      (handleModel env).redisWrites = [] ∧ (handleModel env).closed = true) ∧
    (∀ h, env.firstMsg = some h → pyTruthy h = true → isDict h = true →
      dictGet h "type".toList ≠ some (jStr "handshake") →
      (handleModel env).sent =
        [makeError "INVALID_HANDSHAKE".toList "Se esperaba handshake".toList] ∧
      (handleModel env).redisWrites = [] ∧ (handleModel env).closed = true) ∧
    (∀ h, env.firstMsg = some h → pyTruthy h = true → isDict h = false →
      (handleModel env).sent = [makeError "PROCESSING_ERROR".toList env.errText] ∧
      (handleModel env).redisWrites = [] ∧ (handleModel env).closed = true) := by
  obtain ⟨fm, ru, dok, rok, sid, et, v1, v2, v3, v4, v5, v6, v7, ob, vs, mj⟩ := env
  refine ⟨?_, ?_, ?_, ?_⟩
  · intro hfm
    cases fm with
    | none => exact ⟨rfl, rfl, rfl⟩
    | some h2 => exact Option.noConfusion hfm
  · intro h hfm ht
    cases fm with
    | none => exact Option.noConfusion hfm
    | some h2 =>
      have he : h2 = h := Option.some.inj hfm
      subst he
      simp only [handleModel]
      rw [if_pos ht]
      exact ⟨rfl, rfl, rfl⟩
  · intro h hfm ht hdict hty
    cases fm with
    | none => exact Option.noConfusion hfm
    | some h2 =>
      have he : h2 = h := Option.some.inj hfm
      subst he
      simp only [handleModel]
      rw [if_neg (by simp [ht]), if_neg (by simp [hdict]), if_pos hty]
      exact ⟨rfl, rfl, rfl⟩
  · intro h hfm ht hdict
    cases fm with
    | none => exact Option.noConfusion hfm
    | some h2 =>
      have he : h2 = h := Option.some.inj hfm
      subst he
      simp only [handleModel]
      rw [if_neg (by simp [ht]), if_pos hdict]
      exact ⟨rfl, rfl, rfl⟩

theorem handshake_rejection_behaviour_witness :
    ((handleModel envBase).sent =
        [makeError "INVALID_HANDSHAKE".toList "Se esperaba handshake".toList] ∧
      (handleModel envBase).redisWrites = [] ∧
      (handleModel envBase).closed = true) ∧
    ((handleModel envNum).sent = [makeError "PROCESSING_ERROR".toList envNum.errText] ∧
      (handleModel envNum).redisWrites = [] ∧ (handleModel envNum).closed = true) :=
  ⟨(handshake_rejection_behaviour envBase).1 rfl,
   (handshake_rejection_behaviour envNum).2.2.2 (Json.num 5) rfl (by decide) rfl⟩

/-- C4 counterexample: on the truthy non-dict first message `5` the
handler sends a `PROCESSING_ERROR` error — no `INVALID_HANDSHAKE` message
appears — while indeed writing no session key. -/
theorem handshake_nondict_counterexample :
    (handleModel envNum).sent = [makeError "PROCESSING_ERROR".toList []] ∧
    (handleModel envNum).sent.filter
      (fun j => dictGet j "code".toList == some (jStr "INVALID_HANDSHAKE")) = [] ∧
    (handleModel envNum).redisWrites = [] :=
  ⟨rfl, rfl, rfl⟩

/-- C5: contrary to the spec, the permanent-failure branch of
`process_frame` (retries exhausted, every attempt failing) writes no
stats sidecar at all — `frame_<n>.json` is only written on success — and
the PNG is written only when the original frame decodes; the returned
record's `filter_applied` is `"error"` as specified. -/
theorem worker_permanent_failure_artifacts (decodeOk : Bool) :
    processFrameRun decodeOk (fun _ => AttemptRes.fail) =
      { pngWritten := if decodeOk then some PngContent.original else none,
        statsWritten := none, resultFilter := "error" } := by
  cases decodeOk <;> rfl

/-- C6: amended round trip of the wire codec: encoding a message with
`send_message` and decoding with `recv_message` yields the message back
provided its serialized payload is within the 100 MiB receive bound (the
send side enforces no such bound, so larger messages encode but fail to
decode). -/
theorem wire_roundtrip_within_bound (m : Json)
    (hlen : (utf8Encode (renderJson m)).length ≤ 104857600) :
    ∃ bytes, sendMessage m = some bytes ∧ recvMessage bytes = RecvOutcome.msg m :=
  sendRecv_roundtrip m hlen

theorem wire_roundtrip_within_bound_witness :
    (utf8Encode (renderJson Json.null)).length ≤ 104857600 ∧
    ∃ bytes, sendMessage Json.null = some bytes ∧
      recvMessage bytes = RecvOutcome.msg Json.null :=
  ⟨by decide, wire_roundtrip_within_bound Json.null (by decide)⟩

/-- C6 counterexample: a string message of 104857599 characters serializes
to a 104857601-byte payload; `send_message` encodes it (no bound below
2^32 on the send side) but `recv_message` raises the oversize
`ProtocolError` instead of returning the message. -/
theorem wire_oversize_counterexample :
    (sendMessage (Json.str (List.replicate 104857599 'a'))).map recvMessage =
      some (RecvOutcome.protoError ProtoReason.oversize) := by
  have h2 : recvMessage (be32 104857601 ++
      utf8Encode (renderJson (Json.str (List.replicate 104857599 'a')))) =
      RecvOutcome.protoError ProtoReason.oversize := by
    show recvMessage (6 :: 64 :: 0 :: 1 ::
      utf8Encode (renderJson (Json.str (List.replicate 104857599 'a')))) = _
    rw [recvMessage_cons]
    rw [show be32Val 6 64 0 1 = 104857601 from rfl]
    rw [if_pos (by norm_num)]
  show (if (utf8Encode (renderJson (Json.str (List.replicate 104857599 'a')))).length <
      4294967296 then
    some (be32 (utf8Encode (renderJson (Json.str (List.replicate 104857599 'a')))).length ++
      utf8Encode (renderJson (Json.str (List.replicate 104857599 'a'))))
    else none).map recvMessage = _
  rw [oversize_payload_len]
  rw [if_pos (by norm_num)]
  rw [Option.map_some']
  rw [h2]

/-- C7: outcome classification of `recv_message` on a byte stream: `None`
exactly on a clean close before any length byte; a declared length over
the 100 MiB bound, a payload shorter than declared, and a complete
payload that decodes to text but is malformed JSON all raise
`ProtocolError`; but — contrary to the spec — a 1 to 3 byte length prefix
makes `struct.unpack` raise `struct.error`, and a payload that is not
valid UTF-8 makes `.decode` raise `UnicodeDecodeError`, neither of which
the except clauses catch — those are uncaught exceptions, not protocol
errors. -/
theorem recv_outcome_classification (s : List Nat) :
    (recvMessage s = RecvOutcome.closed ↔ s = []) ∧
    (∀ b, s = [b] → recvMessage s = RecvOutcome.structError) ∧
    (∀ b c, s = [b, c] → recvMessage s = RecvOutcome.structError) ∧
    (∀ b c d, s = [b, c, d] → recvMessage s = RecvOutcome.structError) ∧
    (∀ b0 b1 b2 b3 rest, s = b0 :: b1 :: b2 :: b3 :: rest →
      104857600 < be32Val b0 b1 b2 b3 →
      recvMessage s = RecvOutcome.protoError ProtoReason.oversize) ∧
    (∀ b0 b1 b2 b3 rest, s = b0 :: b1 :: b2 :: b3 :: rest →
      be32Val b0 b1 b2 b3 ≤ 104857600 → rest.length < be32Val b0 b1 b2 b3 →
      recvMessage s = RecvOutcome.protoError ProtoReason.shortPayload) ∧
    (∀ b0 b1 b2 b3 rest, s = b0 :: b1 :: b2 :: b3 :: rest →
      be32Val b0 b1 b2 b3 ≤ 104857600 →
      (rest.take (be32Val b0 b1 b2 b3)).length = be32Val b0 b1 b2 b3 →
      utf8Decode (rest.take (be32Val b0 b1 b2 b3)) = none →
      recvMessage s = RecvOutcome.unicodeError) ∧
    (∀ b0 b1 b2 b3 rest chars, s = b0 :: b1 :: b2 :: b3 :: rest →
      be32Val b0 b1 b2 b3 ≤ 104857600 →
      (rest.take (be32Val b0 b1 b2 b3)).length = be32Val b0 b1 b2 b3 →
      utf8Decode (rest.take (be32Val b0 b1 b2 b3)) = some chars →
      jsonLoads chars = none →
      recvMessage s = RecvOutcome.protoError ProtoReason.badJson) := by
  refine ⟨?_, ?_, ?_, ?_, ?_, ?_, ?_, ?_⟩
  · cases s with
    | nil => exact iff_of_true rfl rfl
    | cons b0 t =>
      cases t with
      | nil =>
        exact iff_of_false
          (by rw [show recvMessage [b0] = RecvOutcome.structError from rfl]; simp)
          (by simp)
      | cons b1 t2 =>
        cases t2 with
        | nil =>
          exact iff_of_false
            (by rw [show recvMessage [b0, b1] = RecvOutcome.structError from rfl]
                simp)
            (by simp)
        | cons b2 t3 =>
          cases t3 with
          | nil =>
            exact iff_of_false
              (by rw [show recvMessage [b0, b1, b2] = RecvOutcome.structError from rfl]
                  simp)
              (by simp)
          | cons b3 rest =>
            refine iff_of_false ?_ (by simp)
            rw [recvMessage_cons]
            split
            · simp
            · split
              · simp
              · split
                · simp
                · split
                  · simp
                  · simp
  · intro b hb
    subst hb
    rfl
  · intro b c hb
    subst hb
    rfl
  · intro b c d hb
    subst hb
    rfl
  · intro b0 b1 b2 b3 rest hs hbig
    subst hs
    rw [recvMessage_cons, if_pos hbig]
  · intro b0 b1 b2 b3 rest hs hle hshort
    subst hs
    rw [recvMessage_cons, if_neg (by omega)]
    rw [if_pos (by rw [List.length_take]; omega :
      (rest.take (be32Val b0 b1 b2 b3)).length ≠ be32Val b0 b1 b2 b3)]
  · intro b0 b1 b2 b3 rest hs hle htake hdec
    subst hs
    rw [recvMessage_cons, if_neg (by omega), if_neg (by simp [htake])]
    simp only [hdec]
  · intro b0 b1 b2 b3 rest chars hs hle htake hdec hload
    subst hs
    rw [recvMessage_cons, if_neg (by omega), if_neg (by simp [htake])]
    simp only [hdec, hload]

theorem recv_outcome_classification_witness :
    recvMessage [] = RecvOutcome.closed ∧
    recvMessage [0] = RecvOutcome.structError ∧
    recvMessage [255, 255, 255, 255] =
      RecvOutcome.protoError ProtoReason.oversize ∧
    recvMessage [0, 0, 0, 200, 0] =
      RecvOutcome.protoError ProtoReason.shortPayload ∧
    recvMessage [0, 0, 0, 1, 255] = RecvOutcome.unicodeError ∧
    recvMessage [0, 0, 0, 1, 120] =
      RecvOutcome.protoError ProtoReason.badJson :=
  ⟨(recv_outcome_classification []).1.mpr rfl,
   (recv_outcome_classification [0]).2.1 0 rfl,
   (recv_outcome_classification [255, 255, 255, 255]).2.2.2.2.1
     255 255 255 255 [] rfl (by decide),
   (recv_outcome_classification [0, 0, 0, 200, 0]).2.2.2.2.2.1
     0 0 0 200 [0] rfl (by decide) (by decide),
   (recv_outcome_classification [0, 0, 0, 1, 255]).2.2.2.2.2.2.1
     0 0 0 1 [255] rfl (by decide) (by decide) (by decide),
   (recv_outcome_classification [0, 0, 0, 1, 120]).2.2.2.2.2.2.2
     0 0 0 1 [120] [Char.ofNat 120] rfl (by decide) (by decide) (by decide)
     (by decide)⟩

/-- C7 counterexample: a single length byte followed by a clean close does
not produce a protocol error — `struct.unpack` raises `struct.error`,
which `recv_message` does not catch. -/
theorem recv_short_prefix_counterexample :
    recvMessage [0] = RecvOutcome.structError := rfl

/-- C8: after any operation sequence on a session's metrics collector
(records, retries, total updates and resets, from construction), the
`frames_processed` counter equals `frames_failed` plus the number of
latency samples. -/
theorem metrics_balance_invariant (ops : List MetricsOp) :
    (MetricsCollector.run ops).balanced :=
  balanced_foldl ops MetricsCollector.init balanced_init

/-- C9: a percentile query on an empty latency sample returns 0; on a
non-empty sample with the percentile in `[0, 100]` the result is bracketed
by two sample elements, hence lies between the sample's minimum and
maximum. -/
theorem percentile_query_spec (m : MetricsCollector) (p : ℚ) :
    (m.latencies = [] → m.getPercentile p = 0) ∧
    (m.latencies ≠ [] → 0 ≤ p → p ≤ 100 →
      ∃ lo ∈ m.latencies, ∃ hi ∈ m.latencies,
        lo ≤ m.getPercentile p ∧ m.getPercentile p ≤ hi) := by
  constructor
  · intro h
    exact getPercentile_empty m p h
  · intro hne hp0 hp1
    exact percentileOf_bounds m.latencies p hne hp0 hp1

theorem percentile_query_spec_witness :
    (MetricsCollector.init.latencies = [] ∧
      MetricsCollector.init.getPercentile 95 = 0) ∧
    (∃ lo ∈ ({ MetricsCollector.init with latencies := [3, 1, 2] } :
        MetricsCollector).latencies,
      ∃ hi ∈ ({ MetricsCollector.init with latencies := [3, 1, 2] } :
        MetricsCollector).latencies,
      lo ≤ ({ MetricsCollector.init with latencies := [3, 1, 2] } :
        MetricsCollector).getPercentile 95 ∧
      ({ MetricsCollector.init with latencies := [3, 1, 2] } :
        MetricsCollector).getPercentile 95 ≤ hi) :=
  ⟨⟨rfl, (percentile_query_spec MetricsCollector.init 95).1 rfl⟩,
   (percentile_query_spec
     { MetricsCollector.init with latencies := [3, 1, 2] } 95).2
     (by decide) (by norm_num) (by norm_num)⟩

/-- C10: `VideoWriter.write` on an open writer with configured
`frame_size` hands the encoder exactly one frame — resized to the
configured dimensions iff the input dimensions differ — and increments
`frame_count` by one. -/
theorem writer_write_resizes_and_counts {C : Type} (pm : PixelModel C)
    (st : VideoWriterState C) (fs : Nat × Nat) (f : Frame C)
    (hopen : st.isOpen = true) (hsize : st.frameSize = some fs) :
    writerWrite pm st f =
      ({ st with written := st.written ++ [fitFrame pm fs f],
                 frameCount := st.frameCount + 1 }, true) :=
  writerWrite_open_spec pm st fs f hopen hsize

theorem writer_write_resizes_and_counts_witness :
    (openWriterW.isOpen = true ∧ openWriterW.frameSize = some (2, 2)) ∧
    writerWrite natPixel openWriterW (⟨3, 2, 5⟩ : Frame Nat) =
      ({ openWriterW with frameCount := 1,
                          written := [fitFrame natPixel (2, 2) ⟨3, 2, 5⟩] },
        true) :=
  ⟨⟨rfl, rfl⟩,
   writer_write_resizes_and_counts natPixel openWriterW (2, 2) ⟨3, 2, 5⟩ rfl rfl⟩

end VideoService
